import Mathlib

/-!
Shallow embedding of the pathy language-server core (Rust sources under
src/server/src) for verifying the natural-language specification.

Strings are modelled as `List Char`; positions are UTF-8 byte offsets,
computed with `Char.utf8Size`, exactly as the Rust code indexes `&str`
slices.  Fallible operations return `Option`.  The process clock
(`std::time::Instant`) is modelled as an explicit `Nat` parameter, and
the filesystem / environment as explicit function arguments.
-/

/-- Abbreviation: a Rust `&str` / `String` is modelled as a list of
Unicode scalar values. -/
abbrev Str := List Char

/-- Conversion from a Lean string literal to the model type. -/
def strL (x : String) : Str := x.data

/-- UTF-8 byte length of a string (Rust `str::len`). -/
def byteLen (l : Str) : Nat := (l.map Char.utf8Size).sum

/-- UTF-16 code-unit length of a single scalar value. -/
def utf16Size (c : Char) : Nat := if c.val < 0x10000 then 1 else 2

/-- UTF-16 length of a string (`utf16_len` in completion.rs). -/
def utf16LenL (l : Str) : Nat := (l.map utf16Size).sum

/-- Drop `n` UTF-8 bytes from the front (Rust `&s[n..]`; callers only use
byte offsets that lie on character boundaries). -/
def dropBytes : Nat → Str → Str
  | 0, l => l
  | _ + 1, [] => []
  | n + 1, c :: cs => dropBytes (n + 1 - c.utf8Size) cs

/-- Take the first `n` UTF-8 bytes (Rust `&s[..n]`; callers only use byte
offsets on character boundaries). -/
def takeBytes : Nat → Str → Str
  | 0, _ => []
  | _ + 1, [] => []
  | n + 1, c :: cs => c :: takeBytes (n + 1 - c.utf8Size) cs

/-- Rust `&s[a..b]`. -/
def sliceBytes (a b : Nat) (l : Str) : Str := takeBytes (b - a) (dropBytes a l)

/-- Opening-brace character, kept out of literals. -/
def lbrace : Char := Char.ofNat 123

/-- Closing-brace character. -/
def rbrace : Char := Char.ofNat 125

/-! ## String Literal Lexer (completion.rs) -/

/-- Model of `StringInfo` (completion.rs). -/
structure StringInfoM where
  contentBeforeCursor : Str
  isRaw : Bool
  isFstring : Bool
  stringStartByte : Nat
  stringStartUtf16 : Nat
  deriving DecidableEq, Repr

/-- Model of `StringState` (completion.rs): the at-most-one open-string state. -/
structure StringStateM where
  quote : Char
  delimLen : Nat
  delim : Str
  startByte : Nat
  isRaw : Bool
  isFstring : Bool
  deriving DecidableEq, Repr

/-- Model of `detect_prefix` (completion.rs): look backward up to two ASCII
letters immediately before the quote For string-prefix letters; the
prefix is only valid if the character before it is not alphanumeric or
underscore.  Returns `(is_raw, is_fstring)`. -/
def detectPrefixFlags (line : Str) (quoteIdx : Nat) : Bool × Bool :=
  match (takeBytes quoteIdx line).reverse with
  | [] => (false, false)
  | c1 :: rest1 =>
    if !c1.isAlpha then (false, false)
    else
      match rest1 with
      | [] => ((c1.toLower = 'r'), (c1.toLower = 'f'))
      | c2 :: rest2 =>
        if !c2.isAlpha then
          if c2.isAlphanum || c2 = '_' then (false, false)
          else ((c1.toLower = 'r'), (c1.toLower = 'f'))
        else
          match rest2 with
          | [] =>
            ((c1.toLower = 'r' || c2.toLower = 'r'),
             (c1.toLower = 'f' || c2.toLower = 'f'))
          | c3 :: _ =>
            if c3.isAlphanum || c3 = '_' then (false, false)
            else
              ((c1.toLower = 'r' || c2.toLower = 'r'),
               (c1.toLower = 'f' || c2.toLower = 'f'))

/-- Depth loop of `is_in_interpolation` (completion.rs): nesting depth of
interpolation braces, doubled braces are literal, depth never goes
negative. -/
def interpGo (isRaw : Bool) : Str → Nat → Nat
  | [], d => d
  | [c], d =>
    if !isRaw && c = '\\' then d
    else if c = lbrace then d + 1
    else if c = rbrace then d - 1
    else d
  | c :: c2 :: rest2, d =>
    if !isRaw && c = '\\' then interpGo isRaw rest2 d
    else if c = lbrace then
      if c2 = lbrace then interpGo isRaw rest2 d
      else interpGo isRaw (c2 :: rest2) (d + 1)
    else if c = rbrace then
      if c2 = rbrace then interpGo isRaw rest2 d
      else interpGo isRaw (c2 :: rest2) (d - 1)
    else interpGo isRaw (c2 :: rest2) d

/-- Model of `is_in_interpolation` (completion.rs). -/
def isInInterp (content : Str) (isRaw : Bool) : Bool :=
  interpGo isRaw content 0 > 0

/-- Delimiter length the lexer assigns to a string opened at byte `s` of
`line`: 3 when the text at `s` starts with a triple quote, else 1. -/
def delimLenAt (line : Str) (s : Nat) : Nat :=
  if (strL "\"\"\"").isPrefixOf (dropBytes s line)
      || (strL "'''").isPrefixOf (dropBytes s line) then 3 else 1

/-- Extraction step of `find_string_info`: content between the opening
delimiter and the cursor, refused when the cursor sits inside an
f-string interpolation.  Result layering: `none` means fall through and
keep scanning (cursor before content start), `some none` means the hard
`return None`, `some (some info)` the successful return. -/
def extractInfo (line : Str) (cursor : Nat) (st : StringStateM) :
    Option (Option StringInfoM) :=
  let contentStart := st.startByte + st.delimLen
  if st.startByte + st.delimLen ≤ cursor then
    let content := sliceBytes contentStart cursor line
    if st.isFstring && isInInterp content st.isRaw then some none
    else
      some (some
        { contentBeforeCursor := content
          isRaw := st.isRaw
          isFstring := st.isFstring
          stringStartByte := st.startByte
          stringStartUtf16 := utf16LenL (takeBytes contentStart line) })
  else none

/-- End-of-line step of `find_string_info` (completion.rs): reached when
the scan has consumed the whole line. -/
def fsiEnd (line : Str) (cursor : Nat) (st : Option StringStateM) :
    Option StringInfoM :=
  if cursor = byteLen line then
    match st with
    | some s =>
      match extractInfo line cursor s with
      | some r => r
      | none => none
    | none => none
  else none

/-- Cursor check at the top of the scan loop of `find_string_info`:
`some r` means the loop returns `r`, `none` means fall through and keep
scanning. -/
def cursorHit (line : Str) (cursor i : Nat) (st : Option StringStateM) :
    Option (Option StringInfoM) :=
  if i = cursor then
    match st with
    | some s => extractInfo line cursor s
    | none => none
  else none

/-- Scan loop of `find_string_info` (completion.rs): `rest` is the
unscanned suffix of `line`, `i` its starting byte offset. -/
def fsiGo (line : Str) (cursor : Nat) :
    Str → Nat → Option StringStateM → Option StringInfoM
  | [], _, st => fsiEnd line cursor st
  | ch :: rest', i, st =>
    if (cursorHit line cursor i st).isSome then
      (cursorHit line cursor i st).getD none
    else
      if st.isNone && ch = '#' then none
      else
        match st with
        | some s =>
          if !s.isRaw && ch = '\\' then
            match rest' with
            | [] => fsiEnd line cursor st
            | next :: rest'' =>
              fsiGo line cursor rest'' (i + ch.utf8Size + next.utf8Size) st
          else if s.delimLen = 1 && ch = s.quote then
            fsiGo line cursor rest' (i + ch.utf8Size) none
          else if s.delimLen = 3 && s.delim.isPrefixOf (ch :: rest') then
            match rest' with
            | [] => fsiEnd line cursor st
            | next :: rest2 =>
              match rest2 with
              | [] => fsiEnd line cursor st
              | _next2 :: rest3 => fsiGo line cursor rest3 (i + 3) none
          else fsiGo line cursor rest' (i + ch.utf8Size) st
        | none =>
          if ch = '\'' || ch = '"' then
            fsiGo line cursor rest' (i + ch.utf8Size)
              (some { quote := ch
                      delimLen :=
                        if (strL "\"\"\"").isPrefixOf (ch :: rest')
                            || (strL "'''").isPrefixOf (ch :: rest') then 3
                        else 1
                      delim :=
                        if (strL "\"\"\"").isPrefixOf (ch :: rest')
                            || (strL "'''").isPrefixOf (ch :: rest') then
                          [ch, ch, ch]
                        else []
                      startByte := i
                      isRaw := (detectPrefixFlags line i).1
                      isFstring := (detectPrefixFlags line i).2 })
          else fsiGo line cursor rest' (i + ch.utf8Size) st

/-- Model of `find_string_info` (completion.rs). -/
def findStringInfo (line : Str) (cursorByte : Nat) : Option StringInfoM :=
  fsiGo line cursorByte line 0 none

/-! ## Configuration (config.rs): the `Config` value -/

/-- Model of `ContextGating` (config.rs). -/
inductive ContextGatingM where
  | Off
  | Smart
  | Strict
  deriving DecidableEq, Repr

/-- Model of `BaseDirStrategy` (config.rs). -/
inductive BaseDirStrategyM where
  | FileDir
  | WorkspaceRoot
  | Both
  deriving DecidableEq, Repr

/-- Model of `WorkspaceRootStrategy` (config.rs). -/
inductive WorkspaceRootStrategyM where
  | LspRootUri
  | Disabled
  deriving DecidableEq, Repr

/-- Model of `StatStrategy` (config.rs). -/
inductive StatStrategyM where
  | None
  | Lazy
  | Eager
  deriving DecidableEq, Repr

/-- Model of `Config` (config.rs).  `windowsEnableDrive` models
`windows_enable_drive_prefix`. -/
structure ConfigM where
  enable : Bool
  pathPrefixFallback : Bool
  contextGating : ContextGatingM
  baseDir : BaseDirStrategyM
  workspaceRootStrategy : WorkspaceRootStrategyM
  maxResults : Nat
  showHidden : Bool
  includeFiles : Bool
  includeDirectories : Bool
  directoryTrailingSlash : Bool
  ignoreGlobs : List Str
  preferForwardSlashes : Bool
  expandTilde : Bool
  windowsEnableDrive : Bool
  windowsEnableUnc : Bool
  cacheTtlMs : Nat
  cacheMaxDirs : Nat
  statStrategy : StatStrategyM
  deriving DecidableEq, Repr

/-- Model of `Config::default()` (config.rs). -/
def defaultConfig : ConfigM where
  enable := true
  pathPrefixFallback := true
  contextGating := ContextGatingM.Smart
  baseDir := BaseDirStrategyM.FileDir
  workspaceRootStrategy := WorkspaceRootStrategyM.LspRootUri
  maxResults := 80
  showHidden := false
  includeFiles := true
  includeDirectories := true
  directoryTrailingSlash := true
  ignoreGlobs :=
    [strL "**/.git/**", strL "**/.venv/**", strL "**/venv/**",
     strL "**/__pycache__/**", strL "**/.pytest_cache/**",
     strL "**/.mypy_cache/**", strL "**/.ruff_cache/**",
     strL "**/node_modules/**"]
  preferForwardSlashes := true
  expandTilde := true
  windowsEnableDrive := true
  windowsEnableUnc := true
  cacheTtlMs := 500
  cacheMaxDirs := 64
  statStrategy := StatStrategyM.Lazy

/-! ## Path Query Classifier (completion.rs) -/

/-- Model of `PrefixKind` (completion.rs). -/
inductive PrefixKindM where
  | Relative
  | Absolute
  | Home
  | WindowsDrive
  | WindowsUnc
  deriving DecidableEq, Repr

/-- Model of `PathQuery` (completion.rs); `segmentPart` models
`segment_prefix` and `prefixKind` models `prefix_kind`. -/
structure PathQueryM where
  dirPart : Str
  segmentPart : Str
  pathStr : Str
  prefixKind : PrefixKindM
  deriving DecidableEq, Repr

/-- Model of `is_windows_drive_prefix` (completion.rs): an ASCII letter,
then a colon, then a forward or backward slash. -/
def isWindowsDrive : Str → Bool
  | letter :: colon :: rest =>
    if !letter.isAlpha || colon ≠ ':' then false
    else
      match rest with
      | '\\' :: _ => true
      | '/' :: _ => true
      | _ => false
  | _ => false

/-- Loop of `find_prefix_query` (completion.rs): scan for the right-most
path-looking prefix at the start of text or right after whitespace,
tracking the previous character and the byte index. -/
def fpqGo (config : ConfigM) : Str → Nat → Option Char → Option Nat → Option Nat
  | [], _, _, acc => acc
  | ch :: rest, idx, prev, acc =>
    let skip : Bool :=
      match prev with
      | some p => !p.isWhitespace
      | none => false
    if skip then fpqGo config rest (idx + ch.utf8Size) (some ch) acc
    else
      let hit : Bool :=
        (strL "../").isPrefixOf (ch :: rest)
        || (strL "./").isPrefixOf (ch :: rest)
        || (strL "/").isPrefixOf (ch :: rest)
        || (strL "~").isPrefixOf (ch :: rest)
        || (config.windowsEnableUnc && (strL "\\\\").isPrefixOf (ch :: rest))
        || (config.windowsEnableDrive && isWindowsDrive (ch :: rest))
      fpqGo config rest (idx + ch.utf8Size) (some ch)
        (if hit then some idx else acc)

/-- Loop of `split_dir_and_segment` (completion.rs): byte index of the
last `/` or `\` separator. -/
def lastSepAcc : Str → Nat → Option Nat → Option Nat
  | [], _, acc => acc
  | ch :: rest, idx, acc =>
    lastSepAcc rest (idx + ch.utf8Size)
      (if ch = '/' || ch = '\\' then some idx else acc)

/-- Model of `split_dir_and_segment` (completion.rs). -/
def splitDirSeg (pathStr : Str) : Str × Str :=
  match lastSepAcc pathStr 0 none with
  | some sepIdx => (takeBytes (sepIdx + 1) pathStr, dropBytes (sepIdx + 1) pathStr)
  | none => ([], pathStr)

/-- Model of `prefix_kind_for_path` (completion.rs). -/
def prefixKindForPath (pathStr : Str) (config : ConfigM) : PrefixKindM :=
  if (strL "~").isPrefixOf pathStr then PrefixKindM.Home
  else if (strL "/").isPrefixOf pathStr then PrefixKindM.Absolute
  else if config.windowsEnableUnc && (strL "\\\\").isPrefixOf pathStr then
    PrefixKindM.WindowsUnc
  else if config.windowsEnableDrive && isWindowsDrive pathStr then
    PrefixKindM.WindowsDrive
  else PrefixKindM.Relative

/-- Model of `find_prefix_query` (completion.rs). -/
def findPrefixQuery (contentBeforeCursor : Str) (config : ConfigM) :
    Option PathQueryM :=
  if contentBeforeCursor = [] then none
  else
    match fpqGo config contentBeforeCursor 0 none none with
    | none => none
    | some start =>
      let pathStr := dropBytes start contentBeforeCursor
      some
        { dirPart := (splitDirSeg pathStr).1
          segmentPart := (splitDirSeg pathStr).2
          pathStr := pathStr
          prefixKind := prefixKindForPath pathStr config }

/-- Model of `build_relative_query` (completion.rs). -/
def buildRelativeQuery (contentBeforeCursor : Str) : PathQueryM :=
  { dirPart := (splitDirSeg contentBeforeCursor).1
    segmentPart := (splitDirSeg contentBeforeCursor).2
    pathStr := contentBeforeCursor
    prefixKind := PrefixKindM.Relative }

/-- Model of `segment_start_offset` (completion.rs): byte offset just
after the last separator. -/
def segStartAcc : Str → Nat → Option Nat → Option Nat
  | [], _, acc => acc
  | ch :: rest, idx, acc =>
    segStartAcc rest (idx + ch.utf8Size)
      (if ch = '/' || ch = '\\' then some (idx + ch.utf8Size) else acc)

/-- Model of `segment_start_offset` (completion.rs). -/
def segmentStartOffset (content : Str) : Nat :=
  (segStartAcc content 0 none).getD 0

/-- Platform path separator (`std::path::MAIN_SEPARATOR`), modelled for
the Unix server build. -/
def mainSeparator : Char := '/'

/-- Model of `separator_for_insertion` (completion.rs). -/
def separatorForInsertion (contentBeforeCursor : Str) (config : ConfigM) : Char :=
  if config.preferForwardSlashes then '/'
  else if contentBeforeCursor.contains '\\' then '\\'
  else mainSeparator

/-! ## Call-Context Heuristic (context.rs) -/

/-- Model of `CallContext` (context.rs). -/
structure CallContextM where
  fullName : Str
  baseName : Str
  argIsFirst : Bool
  namedArg : Option Str
  deriving DecidableEq, Repr

/-- Model of `is_name_char` (context.rs). -/
def isNameChar (ch : Char) : Bool :=
  ch.isAlphanum || ch = '_' || ch = '.'

/-- Rust `str::trim_end` (trailing whitespace removed). -/
def trimEndL (l : Str) : Str :=
  (l.reverse.dropWhile Char.isWhitespace).reverse

/-- Rust `str::trim`. -/
def trimL (l : Str) : Str :=
  trimEndL (l.dropWhile Char.isWhitespace)

/-- Byte-indexed character list (Rust `str::char_indices`). -/
def charIndicesB : Str → Nat → List (Nat × Char)
  | [], _ => []
  | c :: cs, idx => (idx, c) :: charIndicesB cs (idx + c.utf8Size)

/-- Backward scan of `detect_call_context` (context.rs): nearest
unmatched opening parenthesis in the window, tracking `)` depth. -/
def foiGo : List (Nat × Char) → Nat → Option Nat
  | [], _ => none
  | (idx, ch) :: rest, depth =>
    if ch = ')' then foiGo rest (depth + 1)
    else if ch = '(' then
      if depth = 0 then some idx else foiGo rest (depth - 1)
    else foiGo rest depth

/-- Opening-parenthesis search over a window (context.rs, lines 12-30). -/
def findOpenIdx (window : Str) : Option Nat :=
  foiGo (charIndicesB window 0).reverse 0

/-- Generic right-most byte index of a character satisfying `p`. -/
def lastIdxAcc (p : Char → Bool) : Str → Nat → Option Nat → Option Nat
  | [], _, acc => acc
  | ch :: rest, idx, acc =>
    lastIdxAcc p rest (idx + ch.utf8Size) (if p ch then some idx else acc)

/-- Callee-name start (context.rs, lines 34-39): byte offset after the
right-most non-name character. -/
def nameStartOf (before : Str) : Nat :=
  match (charIndicesB before 0).reverse.find? (fun pr => !isNameChar pr.2) with
  | some (idx, ch) => idx + ch.utf8Size
  | none => 0

/-- Base name: last dot-separated segment (`rsplit('.').next()`). -/
def baseNameOf (fullName : Str) : Str :=
  match lastIdxAcc (fun c => c = '.') fullName 0 none with
  | some i => dropBytes (i + 1) fullName
  | none => fullName

/-- Model of `analyze_arg_text` (context.rs): `(arg_is_first, named_arg)`
from the text between the opening parenthesis and the string start. -/
def analyzeArgText (argText : Str) : Bool × Option Str :=
  let trimmed := trimL argText
  if trimmed = [] then (true, none)
  else if trimmed.contains ',' then (false, none)
  else
    match lastIdxAcc (fun c => c = '=') trimmed 0 none with
    | some eqPos =>
      let name := trimL (takeBytes eqPos trimmed)
      if name ≠ [] then (false, some name) else (false, none)
    | none => (false, none)

/-- Window of at most 300 bytes preceding the string start
(context.rs, lines 10-11). -/
def windowOf (text : Str) (stringStartOffset : Nat) : Str :=
  sliceBytes (stringStartOffset - 300) stringStartOffset text

/-- Model of `detect_call_context` (context.rs). -/
def detectCallContext (text : Str) (stringStartOffset : Nat) :
    Option CallContextM :=
  let window := windowOf text stringStartOffset
  match findOpenIdx window with
  | none => none
  | some openIdx =>
    let before := trimEndL (takeBytes openIdx window)
    let argText := dropBytes (openIdx + 1) window
    let fullName := dropBytes (nameStartOf before) before
    if fullName = [] then none
    else
      some
        { fullName := fullName
          baseName := baseNameOf fullName
          argIsFirst := (analyzeArgText argText).1
          namedArg := (analyzeArgText argText).2 }

/-- Model of `matches_known_path_function` (context.rs). -/
def matchesKnownPathFunction (full base : Str) : Bool :=
  base = strL "open" || base = strL "Path"
  || base = strL "read_csv" || base = strL "read_parquet"
  || base = strL "read_json" || base = strL "read_excel"
  || base = strL "read_table"
  || (strL ".read_csv").isSuffixOf full
  || (strL ".read_parquet").isSuffixOf full
  || (strL ".read_json").isSuffixOf full
  || (strL ".read_excel").isSuffixOf full
  || (strL ".read_table").isSuffixOf full
  || (strL ".Path").isSuffixOf full

/-- Model of `matches_named_path_arg` (context.rs). -/
def matchesNamedPathArg (name : Str) : Bool :=
  name = strL "path" || name = strL "filepath" || name = strL "filename"
  || name = strL "file" || name = strL "fname"

/-- Right-most occurrence of a substring (Rust `str::rfind(&str)`). -/
def rfindSubGo (needle : Str) : Str → Nat → Option Nat → Option Nat
  | [], _, acc => acc
  | ch :: rest, idx, acc =>
    rfindSubGo needle rest (idx + ch.utf8Size)
      (if needle.isPrefixOf (ch :: rest) then some idx else acc)

/-- Right-most occurrence of a (non-empty) substring. -/
def rfindSub (needle hay : Str) : Option Nat :=
  rfindSubGo needle hay 0 none

/-- Model of `path_join_operator_context` (context.rs): a `Path(`
invocation in the 120-byte window followed by a `/` after it. -/
def pathJoinOperatorContext (text : Str) (stringStartOffset : Nat) : Bool :=
  let window := sliceBytes (stringStartOffset - 120) stringStartOffset text
  match (rfindSub (strL "Path(") window).or
      (rfindSub (strL "pathlib.Path(") window) with
  | none => false
  | some pathStart => (dropBytes pathStart window).contains '/'

/-- Model of `is_path_context` (context.rs). -/
def isPathContext (text : Str) (stringStartOffset : Nat) : Bool :=
  match detectCallContext text stringStartOffset with
  | some ctx =>
    if !ctx.argIsFirst && ctx.namedArg.isNone then false
    else if matchesKnownPathFunction ctx.fullName ctx.baseName then true
    else
      (match ctx.namedArg with
       | some name => matchesNamedPathArg name
       | none => false)
      || pathJoinOperatorContext text stringStartOffset
  | none => pathJoinOperatorContext text stringStartOffset

/-! ## Glob Matcher (completion.rs) -/

/-- Model of `GlobToken` (completion.rs); `chr` holds a UTF-8 byte. -/
inductive GlobTokenM where
  | chr (b : Nat)
  | star
  | globstar
  deriving DecidableEq, Repr

/-- UTF-8 encoding of one scalar value (byte values as `Nat`). -/
def utf8Enc (c : Char) : List Nat :=
  let n := c.toNat
  if n < 0x80 then [n]
  else if n < 0x800 then [0xC0 + n / 64, 0x80 + n % 64]
  else if n < 0x10000 then
    [0xE0 + n / 4096, 0x80 + (n / 64) % 64, 0x80 + n % 64]
  else
    [0xF0 + n / 262144, 0x80 + (n / 4096) % 64, 0x80 + (n / 64) % 64,
     0x80 + n % 64]

/-- Byte sequence of a string (Rust `str::as_bytes`). -/
def strBytes (l : Str) : List Nat := (l.map utf8Enc).flatten

/-- Model of `tokenize_glob` (completion.rs). -/
def tokenizeGlob : List Nat → List GlobTokenM
  | [] => []
  | 42 :: 42 :: rest2 => GlobTokenM.globstar :: tokenizeGlob rest2
  | 42 :: rest => GlobTokenM.star :: tokenizeGlob rest
  | b :: rest => GlobTokenM.chr b :: tokenizeGlob rest

mutual

/-- Model of `glob_match_tokens` (completion.rs) on suffix lists; the
memo table is semantically transparent and omitted. -/
def globGo : List GlobTokenM → List Nat → Bool
  | [], text => text = []
  | GlobTokenM.chr c :: ts, text =>
    match text with
    | b :: rest => b = c && globGo ts rest
    | [] => false
  | GlobTokenM.star :: ts, text => starCands ts text
  | GlobTokenM.globstar :: ts, text => gsCands ts text
  termination_by ts text => (ts.length, text.length, 0)

/-- Candidate positions for `*`: stop at the first `/` (byte 47). -/
def starCands (ts : List GlobTokenM) : List Nat → Bool
  | [] => globGo ts []
  | b :: rest =>
    if b = 47 then false
    else globGo ts (b :: rest) || starCands ts rest
  termination_by text => (ts.length, text.length, 1)

/-- Candidate positions for `**`: every suffix. -/
def gsCands (ts : List GlobTokenM) : List Nat → Bool
  | [] => globGo ts []
  | b :: rest => globGo ts (b :: rest) || gsCands ts rest
  termination_by text => (ts.length, text.length, 1)

end

/-- Model of `glob_match` (completion.rs). -/
def globMatch (pattern text : Str) : Bool :=
  globGo (tokenizeGlob (strBytes pattern)) (strBytes text)

/-! ## Paths and the Directory Resolver (completion.rs)

Rust `PathBuf` is modelled as its backing string, with the Unix (server
build) semantics of `join` and `parent`. -/

/-- Model of `PathBuf::join(name)` for a `name` without separators. -/
def pathJoin (p name : Str) : Str :=
  if p = [] then name
  else if p.getLast? = some '/' then p ++ name
  else p ++ strL "/" ++ name

/-- Trailing slashes are not significant for `Path::parent`. -/
def trimEndSlashes (p : Str) : Str :=
  (p.reverse.dropWhile (fun c => c = '/')).reverse

/-- Model of `Path::parent` (Unix). -/
def pathParent (p : Str) : Option Str :=
  if p = [] || p = strL "/" then none
  else
    match lastIdxAcc (fun c => c = '/') (trimEndSlashes p) 0 none with
    | some 0 => some (strL "/")
    | some i => some (takeBytes i (trimEndSlashes p))
    | none => some []

/-- Model of `normalize_for_match` (completion.rs). -/
def normalizeForMatch (path : Str) : Str :=
  path.map (fun c => if c = '\\' then '/' else c)

/-- Rust `str::split(&['/', '\\'])` (keeps empty pieces). -/
def splitSeps : Str → List Str
  | [] => [[]]
  | c :: rest =>
    if c = '/' || c = '\\' then [] :: splitSeps rest
    else
      match splitSeps rest with
      | piece :: more => (c :: piece) :: more
      | [] => [[c]]

/-- Model of `apply_relative_dir` (completion.rs): manual `.`/`..`
resolution of `dir_part` against `base`, never touching the
filesystem. -/
def applyRelativeDir (base dirPart : Str) : Str :=
  (splitSeps dirPart).foldl
    (fun current part =>
      if part = [] || part = strL "." then current
      else if part = strL ".." then
        match pathParent current with
        | some parent => parent
        | none => current
      else pathJoin current part)
    base

/-- Model of `Url` (external `lsp_types::Url`): only the scheme and path
are consulted by this core. -/
structure UrlM where
  scheme : Str
  path : Str
  deriving DecidableEq, Repr

/-- Model of `Url::to_file_path` for well-formed `file` URLs. -/
def urlToFilePath (u : UrlM) : Option Str :=
  if u.scheme = strL "file" then some u.path else none

/-- Model of `base_dir_from_uri` (completion.rs). -/
def baseDirFromUri (uri : UrlM) (rootUri : Option UrlM) : Option Str :=
  match (if uri.scheme = strL "file" then urlToFilePath uri else none) with
  | some path => pathParent path
  | none => rootUri.bind urlToFilePath

/-- Model of `resolve_list_dirs` (completion.rs); `home` models the
`dirs_home()` environment lookup (`HOME` / `USERPROFILE`). -/
def resolveListDirs (query : PathQueryM) (fileDir rootDir : Option Str)
    (config : ConfigM) (home : Option Str) : List Str :=
  match query.prefixKind with
  | PrefixKindM.Home =>
    if !config.expandTilde then []
    else
      match home with
      | none => []
      | some h =>
        [applyRelativeDir h (query.dirPart.dropWhile (fun c => c = '~'))]
  | PrefixKindM.Absolute => [query.dirPart]
  | PrefixKindM.WindowsDrive => [query.dirPart]
  | PrefixKindM.WindowsUnc => [query.dirPart]
  | PrefixKindM.Relative =>
    let root :=
      match config.workspaceRootStrategy with
      | WorkspaceRootStrategyM.LspRootUri => rootDir
      | WorkspaceRootStrategyM.Disabled => none
    match config.baseDir with
    | BaseDirStrategyM.FileDir =>
      match fileDir with
      | some d => [applyRelativeDir d query.dirPart]
      | none => []
    | BaseDirStrategyM.WorkspaceRoot =>
      match root with
      | some d => [applyRelativeDir d query.dirPart]
      | none => []
    | BaseDirStrategyM.Both =>
      let dirs :=
        match fileDir with
        | some d => [applyRelativeDir d query.dirPart]
        | none => []
      match root with
      | some d =>
        if dirs.all (fun x => x ≠ applyRelativeDir d query.dirPart) then
          dirs ++ [applyRelativeDir d query.dirPart]
        else dirs
      | none => dirs

/-! ## Directory Cache (cache.rs) -/

/-- Model of `DirEntryInfo` (cache.rs). -/
structure DirEntryInfoM where
  name : Str
  isDir : Bool
  deriving DecidableEq, Repr

/-- Model of `CacheEntry` (cache.rs); `Instant` is a `Nat` tick. -/
structure CacheEntryM where
  dir : Str
  items : List DirEntryInfoM
  timestamp : Nat
  deriving DecidableEq, Repr

/-- Model of `DirCache` (cache.rs); the `VecDeque` front (index 0) is
the most-recently-used end. -/
structure DirCacheM where
  ttl : Nat
  maxEntries : Nat
  entries : List CacheEntryM
  deriving DecidableEq, Repr

/-- Model of `DirCache::new` (cache.rs). -/
def DirCacheM.new (ttl maxEntries : Nat) : DirCacheM :=
  { ttl := ttl, maxEntries := maxEntries, entries := [] }

/-- Rust `iter().position(...)` followed by `remove(pos)`: first entry
for `dir` and the deque without it. -/
def findRemove (dir : Str) : List CacheEntryM →
    Option (CacheEntryM × List CacheEntryM)
  | [] => none
  | e :: rest =>
    if e.dir = dir then some (e, rest)
    else
      match findRemove dir rest with
      | some (x, r) => some (x, e :: r)
      | none => none

/-- Eviction loop (`while len > max { pop_back() }`), with explicit fuel
so that it computes by kernel reduction; fuel `l.length` suffices. -/
def truncGo (maxE : Nat) : Nat → List CacheEntryM → List CacheEntryM
  | 0, l => l
  | n + 1, l => if l.length > maxE then truncGo maxE n l.dropLast else l

/-- Eviction from the least-recently-used (back) end until the capacity
is respected. -/
def truncEntries (maxE : Nat) (l : List CacheEntryM) : List CacheEntryM :=
  truncGo maxE l.length l

/-- Model of `DirCache::get` (cache.rs): recency refresh on a fresh hit,
drop on an expired hit. -/
def DirCacheM.get (c : DirCacheM) (dir : Str) (now : Nat) :
    Option (List DirEntryInfoM) × DirCacheM :=
  match findRemove dir c.entries with
  | some (entry, rest) =>
    if now - entry.timestamp ≤ c.ttl then
      (some entry.items, { c with entries := entry :: rest })
    else (none, { c with entries := rest })
  | none => (none, c)

/-- Model of `DirCache::insert` (cache.rs). -/
def DirCacheM.insert (c : DirCacheM) (dir : Str)
    (items : List DirEntryInfoM) (now : Nat) : DirCacheM :=
  let rest :=
    match findRemove dir c.entries with
    | some (_, r) => r
    | none => c.entries
  let pushed : List CacheEntryM :=
    { dir := dir, items := items, timestamp := now } :: rest
  { c with entries := truncEntries c.maxEntries pushed }

/-- Model of `DirCache::update_limits` (cache.rs). -/
def DirCacheM.updateLimits (c : DirCacheM) (ttl maxEntries : Nat) :
    DirCacheM :=
  { ttl := ttl, maxEntries := maxEntries,
    entries := truncEntries maxEntries c.entries }

/-! ## Entry filtering and sorting (completion.rs) -/

/-- Lexicographic comparison of strings by scalar value; agrees with
Rust `str::cmp` (UTF-8 byte order preserves scalar order). -/
def cmpChars : Str → Str → Ordering
  | [], [] => Ordering.eq
  | [], _ :: _ => Ordering.lt
  | _ :: _, [] => Ordering.gt
  | a :: as', b :: bs' =>
    if a.val < b.val then Ordering.lt
    else if b.val < a.val then Ordering.gt
    else cmpChars as' bs'

/-- Rust `bool::cmp` (`false < true`). -/
def boolCmp (a b : Bool) : Ordering :=
  if a = b then Ordering.eq else if a then Ordering.gt else Ordering.lt

/-- Comparator of `filter_entries` (completion.rs): directories first,
then lexicographic by name. -/
def entryCmp (a b : Str × Bool) : Ordering :=
  (boolCmp b.2 a.2).then (cmpChars a.1 b.1)

/-- Stable insertion of an earlier element into the sorted tail: it goes
before the first element it does not strictly exceed. -/
def insertOrd (cmp : α → α → Ordering) (x : α) : List α → List α
  | [] => [x]
  | y :: ys =>
    if cmp x y = Ordering.gt then y :: insertOrd cmp x ys
    else x :: y :: ys

/-- Stable sort (insertion sort), modelling Rust's stable
`slice::sort_by`. -/
def sortStable (cmp : α → α → Ordering) : List α → List α
  | [] => []
  | x :: xs => insertOrd cmp x (sortStable cmp xs)

/-- Model of `filter_entries` (completion.rs): visibility, kind,
segment-prefix and ignore-glob filtering, then directories-first
lexicographic sort. -/
def filterEntries (entries : List (Str × Bool × Str)) (segmentPart : Str)
    (config : ConfigM) : List (Str × Bool) :=
  sortStable entryCmp
    ((entries.filter (fun e =>
      if !config.showHidden && (strL ".").isPrefixOf e.1 then false
      else if !config.includeDirectories && e.2.1 then false
      else if !config.includeFiles && !e.2.1 then false
      else if !(segmentPart.isPrefixOf e.1) then false
      else
        !(config.ignoreGlobs.any
          (fun pattern => globMatch pattern (normalizeForMatch e.2.2))))).map
      (fun e => (e.1, e.2.1)))

/-! ## Settings loading (config.rs): `serde_json::Value` model -/

/-- Model of `serde_json::Value`; numbers are integers (the only number
accessor this code uses is `as_u64`). -/
inductive JsonM where
  | null
  | bool (b : Bool)
  | num (n : Int)
  | str (s : Str)
  | arr (items : List JsonM)
  | obj (fields : List (Str × JsonM))

/-- Rust `Value::get(key)` on an object. -/
def JsonM.getKey (v : JsonM) (key : Str) : Option JsonM :=
  match v with
  | JsonM.obj fields => (fields.find? (fun f => f.1 = key)).map (fun f => f.2)
  | _ => none

/-- Rust `Value::as_bool`. -/
def JsonM.asBool : JsonM → Option Bool
  | JsonM.bool b => some b
  | _ => none

/-- Rust `Value::as_str`. -/
def JsonM.asStr : JsonM → Option Str
  | JsonM.str s => some s
  | _ => none

/-- Rust `Value::as_u64`: integers in `0 ..= u64::MAX`. -/
def JsonM.asU64 : JsonM → Option Nat
  | JsonM.num n => if 0 ≤ n && n < (2 : Int) ^ 64 then some n.toNat else none
  | _ => none

/-- Rust `Value::as_array`. -/
def JsonM.asArr : JsonM → Option (List JsonM)
  | JsonM.arr items => some items
  | _ => none

/-- Model of `select_settings_root` (config.rs). -/
def selectSettingsRoot (value : JsonM) : Option JsonM :=
  let current :=
    match value.getKey (strL "settings") with
    | some s => s
    | none => value
  match (current.getKey (strL "lsp")).bind
      (fun lsp => lsp.getKey (strL "pathy")) with
  | some server =>
    match server.getKey (strL "settings") with
    | some s2 => some s2
    | none => some server
  | none =>
    match current.getKey (strL "pathy") with
    | some p => some p
    | none =>
      match current with
      | JsonM.obj _ => some current
      | _ => none

/-- Model of `set_bool` (config.rs): new field value and warnings. -/
def setBoolField (target : Bool) (value : JsonM) (key : Str)
    (warnings : List Str) : Bool × List Str :=
  match value.asBool with
  | some v => (v, warnings)
  | none => (target, warnings ++ [strL "invalid " ++ key ++ strL " type"])

/-- Model of `set_usize` / `set_u64` (config.rs); `as usize` is the
identity on a 64-bit host. -/
def setNatField (target : Nat) (value : JsonM) (key : Str)
    (warnings : List Str) : Nat × List Str :=
  match value.asU64 with
  | some v => (v, warnings)
  | none => (target, warnings ++ [strL "invalid " ++ key ++ strL " type"])

/-- One iteration of the field loop of `load_config` (config.rs). -/
def applyField (cw : ConfigM × List Str) (field : Str × JsonM) :
    ConfigM × List Str :=
  let config := cw.1
  let warnings := cw.2
  let key := field.1
  let val := field.2
  if key = strL "enable" then
    let r := setBoolField config.enable val key warnings
    ({ config with enable := r.1 }, r.2)
  else if key = strL "path_prefix_fallback" then
    let r := setBoolField config.pathPrefixFallback val key warnings
    ({ config with pathPrefixFallback := r.1 }, r.2)
  else if key = strL "context_gating" then
    match val.asStr with
    | some s =>
      if s = strL "off" then ({ config with contextGating := ContextGatingM.Off }, warnings)
      else if s = strL "smart" then ({ config with contextGating := ContextGatingM.Smart }, warnings)
      else if s = strL "strict" then ({ config with contextGating := ContextGatingM.Strict }, warnings)
      else (config, warnings ++ [strL "invalid context_gating: " ++ s])
    | none => (config, warnings ++ [strL "invalid context_gating type"])
  else if key = strL "base_dir" then
    match val.asStr with
    | some s =>
      if s = strL "file_dir" then ({ config with baseDir := BaseDirStrategyM.FileDir }, warnings)
      else if s = strL "workspace_root" then ({ config with baseDir := BaseDirStrategyM.WorkspaceRoot }, warnings)
      else if s = strL "both" then ({ config with baseDir := BaseDirStrategyM.Both }, warnings)
      else (config, warnings ++ [strL "invalid base_dir: " ++ s])
    | none => (config, warnings ++ [strL "invalid base_dir type"])
  else if key = strL "workspace_root_strategy" then
    match val.asStr with
    | some s =>
      if s = strL "lsp_root_uri" then
        ({ config with workspaceRootStrategy := WorkspaceRootStrategyM.LspRootUri }, warnings)
      else if s = strL "disabled" then
        ({ config with workspaceRootStrategy := WorkspaceRootStrategyM.Disabled }, warnings)
      else (config, warnings ++ [strL "invalid workspace_root_strategy: " ++ s])
    | none => (config, warnings ++ [strL "invalid workspace_root_strategy type"])
  else if key = strL "max_results" then
    let r := setNatField config.maxResults val key warnings
    ({ config with maxResults := r.1 }, r.2)
  else if key = strL "show_hidden" then
    let r := setBoolField config.showHidden val key warnings
    ({ config with showHidden := r.1 }, r.2)
  else if key = strL "include_files" then
    let r := setBoolField config.includeFiles val key warnings
    ({ config with includeFiles := r.1 }, r.2)
  else if key = strL "include_directories" then
    let r := setBoolField config.includeDirectories val key warnings
    ({ config with includeDirectories := r.1 }, r.2)
  else if key = strL "directory_trailing_slash" then
    let r := setBoolField config.directoryTrailingSlash val key warnings
    ({ config with directoryTrailingSlash := r.1 }, r.2)
  else if key = strL "ignore_globs" then
    match val.asArr with
    | some list =>
      let globs := list.filterMap JsonM.asStr
      let ws := warnings ++
        (list.filter (fun entry => entry.asStr.isNone)).map
          (fun _ => strL "invalid ignore_globs entry")
      if globs ≠ [] then ({ config with ignoreGlobs := globs }, ws)
      else (config, ws)
    | none => (config, warnings ++ [strL "invalid ignore_globs type"])
  else if key = strL "prefer_forward_slashes" then
    let r := setBoolField config.preferForwardSlashes val key warnings
    ({ config with preferForwardSlashes := r.1 }, r.2)
  else if key = strL "expand_tilde" then
    let r := setBoolField config.expandTilde val key warnings
    ({ config with expandTilde := r.1 }, r.2)
  else if key = strL "windows_enable_drive_prefix" then
    let r := setBoolField config.windowsEnableDrive val key warnings
    ({ config with windowsEnableDrive := r.1 }, r.2)
  else if key = strL "windows_enable_unc" then
    let r := setBoolField config.windowsEnableUnc val key warnings
    ({ config with windowsEnableUnc := r.1 }, r.2)
  else if key = strL "cache_ttl_ms" then
    let r := setNatField config.cacheTtlMs val key warnings
    ({ config with cacheTtlMs := r.1 }, r.2)
  else if key = strL "cache_max_dirs" then
    let r := setNatField config.cacheMaxDirs val key warnings
    ({ config with cacheMaxDirs := r.1 }, r.2)
  else if key = strL "stat_strategy" then
    match val.asStr with
    | some s =>
      if s = strL "none" then ({ config with statStrategy := StatStrategyM.None }, warnings)
      else if s = strL "lazy" then ({ config with statStrategy := StatStrategyM.Lazy }, warnings)
      else if s = strL "eager" then ({ config with statStrategy := StatStrategyM.Eager }, warnings)
      else (config, warnings ++ [strL "invalid stat_strategy: " ++ s])
    | none => (config, warnings ++ [strL "invalid stat_strategy type"])
  else (config, warnings)

/-- Result of a configuration load: the config, the collected warnings,
the `warned` flag after the load, and whether a warning line was
actually emitted by this load. -/
structure LoadResultM where
  config : ConfigM
  warnings : List Str
  warnedAfter : Bool
  emitted : Bool
  deriving DecidableEq, Repr

/-- Model of `load_config` (config.rs): starts from
`Config::default()`, applies each well-typed field, collects warnings,
and emits them once unless `warned` was already set. -/
def loadConfig (value : JsonM) (warned : Bool) : LoadResultM :=
  match selectSettingsRoot value with
  | none =>
    { config := defaultConfig, warnings := [], warnedAfter := warned,
      emitted := false }
  | some root =>
    match root with
    | JsonM.obj fields =>
      let cw := fields.foldl applyField (defaultConfig, [])
      let emit := !cw.2.isEmpty && !warned
      { config := cw.1, warnings := cw.2, warnedAfter := warned || emit,
        emitted := emit }
    | _ =>
      { config := defaultConfig, warnings := [], warnedAfter := warned,
        emitted := false }

/-! ## Server layer (main.rs) -/

/-- Model of `DocumentState` (main.rs). -/
structure DocumentStateM where
  text : Str
  languageId : Option Str
  deriving DecidableEq, Repr

/-- Model of `ServerState` (main.rs); the protocol-plumbing fields
(`debug`, `pending_config_request`, `next_request_id`) do not affect the
completion core and are omitted. -/
structure ServerStateM where
  documents : List (UrlM × DocumentStateM)
  rootUri : Option UrlM
  cache : DirCacheM
  config : ConfigM
  configWarned : Bool
  deriving DecidableEq, Repr

/-- Per-request input of `completion_items`: document URI and UTF-16
cursor position. -/
structure ParamsM where
  uri : UrlM
  line : Nat
  character : Nat
  deriving DecidableEq, Repr

/-- Rust `str::split('\n')` (keeps empty pieces, at least one piece). -/
def splitNl : Str → List Str
  | [] => [[]]
  | c :: rest =>
    if c = '\n' then [] :: splitNl rest
    else
      match splitNl rest with
      | piece :: more => (c :: piece) :: more
      | [] => [[c]]

/-- Model of `get_line` (main.rs). -/
def getLine (text : Str) (line : Nat) : Option Str :=
  (splitNl text).get? line

/-- Loop of `line_start_offset` (main.rs). -/
def lsoGo (target : Nat) : List Str → Nat → Nat → Option Nat
  | [], _, _ => none
  | part :: rest, current, offset =>
    if current = target then some offset
    else lsoGo target rest (current + 1) (offset + byteLen part + 1)

/-- Model of `line_start_offset` (main.rs). -/
def lineStartOffset (text : Str) (line : Nat) : Option Nat :=
  lsoGo line (splitNl text) 0 0

/-- Loop of `utf16_col_to_byte` (main.rs): `i` is the byte offset of the
current character, `count` the UTF-16 units consumed so far. -/
def u16Go (line : Str) (col : Nat) : Str → Nat → Nat → Option Nat
  | [], _, count => if count = col then some (byteLen line) else none
  | ch :: rest, i, count =>
    if count + utf16Size ch > col then some i
    else if count + utf16Size ch = col then some (i + ch.utf8Size)
    else u16Go line col rest (i + ch.utf8Size) (count + utf16Size ch)

/-- Model of `utf16_col_to_byte` (main.rs). -/
def utf16ColToByte (line : Str) (col : Nat) : Option Nat :=
  u16Go line col line 0 0

/-- ASCII lowercasing; `eq_ignore_ascii_case` is equality after this
map. -/
def asciiLower (s : Str) : Str := s.map Char.toLower

/-- Model of `is_python_document` (main.rs). -/
def isPythonDocument (uri : UrlM) (languageId : Option Str) : Bool :=
  match languageId with
  | some lang =>
    if asciiLower lang = asciiLower (strL "python") then true
    else (strL ".py").isSuffixOf uri.path
  | none => (strL ".py").isSuffixOf uri.path

/-- Model of `is_completion_allowed` (main.rs). -/
def isCompletionAllowed (state : ServerStateM) (text : Str)
    (hasPrefixFallback : Bool) (stringStartOffset : Nat) : Bool :=
  match state.config.contextGating with
  | ContextGatingM.Strict => isPathContext text stringStartOffset
  | ContextGatingM.Off => true
  | ContextGatingM.Smart =>
    if hasPrefixFallback then true
    else isPathContext text stringStartOffset

/-- Directory-entry kind under the configured stat strategy (main.rs,
`list_dir_entries`): `None` disables kind detection. -/
def entryIsDir (config : ConfigM) (isDirReal : Bool) : Bool :=
  match config.statStrategy with
  | StatStrategyM.None => false
  | _ => isDirReal

/-- Model of `list_dir_entries` (main.rs); `fs` models the raw
`std::fs::read_dir` enumeration primitive (name and real kind of each
readable entry, in iteration order), `none` for an unreadable
directory. -/
def listDirEntries (fs : Str → Option (List (Str × Bool))) (dir : Str)
    (cache : DirCacheM) (config : ConfigM) (now : Nat) :
    Option (List (Str × Bool × Str)) × DirCacheM :=
  match cache.get dir now with
  | (some cached, cache') =>
    (some (cached.map (fun e => (e.name, e.isDir, pathJoin dir e.name))), cache')
  | (none, cache') =>
    match fs dir with
    | none => (none, cache')
    | some raw =>
      let taken := raw.take (config.maxResults * 2)
      let items := taken.map
        (fun e => ({ name := e.1, isDir := entryIsDir config e.2 } : DirEntryInfoM))
      let entries := taken.map
        (fun e => (e.1, entryIsDir config e.2, pathJoin dir e.1))
      (some entries, cache'.insert dir items now)

/-- Model of `CompletionItem` as produced by `completion_item`
(main.rs): label, FOLDER/FILE kind, text edit and its UTF-16 range. -/
structure CompletionItemM where
  label : Str
  isDirKind : Bool
  newText : Str
  rangeStartLine : Nat
  rangeStartChar : Nat
  rangeEndLine : Nat
  rangeEndChar : Nat
  deriving DecidableEq, Repr

/-- Model of `completion_item` (main.rs). -/
def completionItem (name : Str) (isDir : Bool)
    (rangeStartLine rangeStartChar rangeEndLine rangeEndChar : Nat)
    (config : ConfigM) (info : StringInfoM) : CompletionItemM :=
  { label := name
    isDirKind := isDir
    newText :=
      if isDir && config.directoryTrailingSlash then
        name ++ [separatorForInsertion info.contentBeforeCursor config]
      else name
    rangeStartLine := rangeStartLine
    rangeStartChar := rangeStartChar
    rangeEndLine := rangeEndLine
    rangeEndChar := rangeEndChar }

/-- Deduplication loop of `completion_items` (main.rs, lines 337-343):
`seen` models the `HashSet`, first occurrence wins. -/
def dedupeGo : List (Str × Bool) → List Str → List (Str × Bool) →
    List (Str × Bool)
  | [], _, out => out.reverse
  | e :: rest, seen, out =>
    if seen.contains e.1 then dedupeGo rest seen out
    else dedupeGo rest (e.1 :: seen) (e :: out)

/-- Truncate-then-deduplicate stage of `completion_items` (main.rs,
lines 337-343): the filtered list is capped at `max_results` first and
deduplicated by name afterwards. -/
def dedupeTake (filtered : List (Str × Bool)) (maxResults : Nat) :
    List (Str × Bool) :=
  dedupeGo (filtered.take maxResults) [] []

/-- Model of `completion_items` (main.rs): the full per-request
pipeline.  `fs` models raw directory enumeration, `home` the
`dirs_home()` environment lookup, `now` the process clock; the returned
state carries the mutated cache. -/
def completionItems (fs : Str → Option (List (Str × Bool)))
    (home : Option Str) (now : Nat) (state : ServerStateM)
    (params : ParamsM) : List CompletionItemM × ServerStateM :=
  if !state.config.enable then ([], state)
  else
    match (state.documents.find? (fun d => d.1 = params.uri)).map
        (fun d => d.2) with
    | none => ([], state)
    | some doc =>
      if !isPythonDocument params.uri doc.languageId then ([], state)
      else
        match getLine doc.text params.line with
        | none => ([], state)
        | some line =>
          match utf16ColToByte line params.character with
          | none => ([], state)
          | some cursorByte =>
            match lineStartOffset doc.text params.line with
            | none => ([], state)
            | some lineStart =>
              match findStringInfo line cursorByte with
              | none => ([], state)
              | some info =>
                let stringStartOffset := lineStart + info.stringStartByte
                let prefixQuery :=
                  if state.config.pathPrefixFallback then
                    findPrefixQuery info.contentBeforeCursor state.config
                  else none
                if !isCompletionAllowed state doc.text prefixQuery.isSome
                    stringStartOffset then ([], state)
                else
                  let query :=
                    prefixQuery.getD
                      (buildRelativeQuery info.contentBeforeCursor)
                  let fileDir := baseDirFromUri params.uri none
                  let rootDir := state.rootUri.bind urlToFilePath
                  let listDirs :=
                    resolveListDirs query fileDir rootDir state.config home
                  if listDirs = [] then ([], state)
                  else
                    let acc := listDirs.foldl
                      (fun (ac : List (Str × Bool × Str) × DirCacheM) dir =>
                        match listDirEntries fs dir ac.2 state.config now with
                        | (some listed, cache') => (ac.1 ++ listed, cache')
                        | (none, cache') => (ac.1, cache'))
                      ([], state.cache)
                    let filtered :=
                      filterEntries acc.1 query.segmentPart state.config
                    let segmentStartByte :=
                      segmentStartOffset info.contentBeforeCursor
                    let startChar :=
                      info.stringStartUtf16 +
                        utf16LenL (takeBytes segmentStartByte
                          info.contentBeforeCursor)
                    let deduped := dedupeTake filtered state.config.maxResults
                    (deduped.map
                      (fun e =>
                        completionItem e.1 e.2 params.line startChar
                          params.line params.character state.config info),
                     { state with cache := acc.2 })

/-- Model of `apply_config_update` (main.rs): reload the configuration,
re-bound the cache, swap the config; the second component reports
whether this load emitted a warning line. -/
def applyConfigUpdate (state : ServerStateM) (value : JsonM) :
    ServerStateM × Bool :=
  let r := loadConfig value state.configWarned
  ({ state with
      cache := state.cache.updateLimits r.config.cacheTtlMs r.config.cacheMaxDirs
      config := r.config
      configWarned := r.warnedAfter },
   r.emitted)

/-! ## Byte-offset lemmas -/

theorem byteLen_nil : byteLen [] = 0 := rfl

theorem byteLen_cons (c : Char) (cs : Str) :
    byteLen (c :: cs) = c.utf8Size + byteLen cs := by
  simp [byteLen]

theorem byteLen_append (a b : Str) : byteLen (a ++ b) = byteLen a + byteLen b := by
  simp [byteLen]

theorem utf8Size_pos (c : Char) : 0 < c.utf8Size := Char.utf8Size_pos c

theorem dropBytes_zero (l : Str) : dropBytes 0 l = l := by
  cases l <;> rfl

theorem dropBytes_cons_of_pos (n : Nat) (c : Char) (cs : Str) (h : 0 < n) :
    dropBytes n (c :: cs) = dropBytes (n - c.utf8Size) cs := by
  cases n with
  | zero => exact absurd h (by simp)
  | succ m => rfl

theorem takeBytes_cons_of_pos (n : Nat) (c : Char) (cs : Str) (h : 0 < n) :
    takeBytes n (c :: cs) = c :: takeBytes (n - c.utf8Size) cs := by
  cases n with
  | zero => exact absurd h (by simp)
  | succ m => rfl

theorem dropBytes_byteLen_append (a b : Str) :
    dropBytes (byteLen a) (a ++ b) = b := by
  induction a with
  | nil => simp [byteLen, dropBytes]
  | cons c a' ih =>
    have hpos : 0 < byteLen (c :: a') := by
      have := utf8Size_pos c
      rw [byteLen_cons]
      omega
    rw [List.cons_append, dropBytes_cons_of_pos _ _ _ hpos, byteLen_cons,
      Nat.add_sub_cancel_left, ih]

theorem takeBytes_byteLen_append (a b : Str) :
    takeBytes (byteLen a) (a ++ b) = a := by
  induction a with
  | nil => simp [byteLen, takeBytes]
  | cons c a' ih =>
    have hpos : 0 < byteLen (c :: a') := by
      have := utf8Size_pos c
      rw [byteLen_cons]
      omega
    rw [List.cons_append, takeBytes_cons_of_pos _ _ _ hpos, byteLen_cons,
      Nat.add_sub_cancel_left, ih]

theorem takeBytes_append_dropBytes (n : Nat) (l : Str) :
    takeBytes n l ++ dropBytes n l = l := by
  induction l generalizing n with
  | nil => cases n <;> rfl
  | cons c cs ih =>
    cases n with
    | zero => rfl
    | succ m =>
      simp only [takeBytes, dropBytes, List.cons_append]
      rw [ih]

theorem takeBytes_prefix_mono (m n : Nat) (l : Str) (h : m ≤ n) :
    takeBytes m l <+: takeBytes n l := by
  induction l generalizing m n with
  | nil => cases m <;> cases n <;> simp [takeBytes]
  | cons c cs ih =>
    cases m with
    | zero => simp [takeBytes]
    | succ m' =>
      cases n with
      | zero => omega
      | succ n' =>
        simp only [takeBytes]
        exact List.cons_prefix_cons.mpr ⟨rfl, ih _ _ (by omega)⟩

theorem dropBytes_byteLen_take (l : Str) (k : Nat) :
    dropBytes (byteLen (l.take k)) l = l.drop k := by
  have h := dropBytes_byteLen_append (l.take k) (l.drop k)
  rw [List.take_append_drop] at h
  exact h

theorem dropBytes_byteLen_self (l : Str) : dropBytes (byteLen l) l = [] := by
  have := dropBytes_byteLen_append l []
  simpa using this

/-! ## C7: PathQuery round-trip -/

/-- Separator predicate of `split_dir_and_segment`. -/
def isSep (c : Char) : Bool := c = '/' || c = '\\'

theorem lastSepAcc_append_singleton (l : Str) (c : Char) (idx : Nat)
    (acc : Option Nat) :
    lastSepAcc (l ++ [c]) idx acc =
      if isSep c then some (idx + byteLen l) else lastSepAcc l idx acc := by
  induction l generalizing idx acc with
  | nil => simp [lastSepAcc, isSep, byteLen]
  | cons d l' ih =>
    rw [List.cons_append]
    show lastSepAcc (l' ++ [c]) (idx + d.utf8Size)
        (if d = '/' || d = '\\' then some idx else acc) = _
    rw [ih]
    by_cases h : isSep c
    · simp only [h, if_pos, byteLen_cons]
      congr 1
      omega
    · simp only [h, Bool.false_eq_true, if_neg]
      rfl

theorem lastSepAcc_bound (l : Str) :
    ∀ (idx : Nat) (acc : Option Nat),
    (∀ s, acc = some s → s + 1 ≤ idx) →
    ∀ s, lastSepAcc l idx acc = some s → s + 1 ≤ idx + byteLen l := by
  induction l with
  | nil =>
    intro idx acc hacc s h
    have := hacc s h
    rw [byteLen_nil]
    omega
  | cons c rest ih =>
    intro idx acc hacc s h
    show s + 1 ≤ idx + byteLen (c :: rest)
    have step : ∀ s', (if c = '/' || c = '\\' then some idx else acc) = some s' →
        s' + 1 ≤ idx + c.utf8Size := by
      intro s' hs'
      by_cases hc : (c = '/' || c = '\\') = true
      · rw [if_pos hc] at hs'
        cases hs'
        have := utf8Size_pos c
        omega
      · rw [if_neg hc] at hs'
        have := hacc s' hs'
        have := utf8Size_pos c
        omega
    have hrec := ih (idx + c.utf8Size) _ step s h
    rw [byteLen_cons]
    omega

theorem dropBytes_append_singleton (n : Nat) (l : Str) (c : Char)
    (h : n ≤ byteLen l) :
    dropBytes n (l ++ [c]) = dropBytes n l ++ [c] := by
  induction l generalizing n with
  | nil =>
    cases n with
    | zero => rfl
    | succ m => rw [byteLen_nil] at h; omega
  | cons d l' ih =>
    cases n with
    | zero => rfl
    | succ m =>
      rw [List.cons_append]
      show dropBytes (m + 1 - d.utf8Size) (l' ++ [c]) = _
      rw [ih _ (by rw [byteLen_cons] at h; omega)]
      rfl

/-- After the last separator there is no separator. -/
theorem lastSep_no_sep_after (l : Str) :
    (∀ s, lastSepAcc l 0 none = some s →
      (dropBytes (s + 1) l).all (fun c => !isSep c) = true) ∧
    (lastSepAcc l 0 none = none → l.all (fun c => !isSep c) = true) := by
  induction l using List.reverseRecOn with
  | nil =>
    refine ⟨fun s h => ?_, fun _ => by simp⟩
    cases h
  | append_singleton l c ih =>
    by_cases hc : isSep c
    · refine ⟨fun s h => ?_, fun h => ?_⟩
      · rw [lastSepAcc_append_singleton, if_pos hc] at h
        cases h
        have hc1 : c.utf8Size = 1 := by
          rcases (by simpa [isSep] using hc : c = '/' ∨ c = '\\') with h | h <;>
            subst h <;> rfl
        have hlen : 0 + byteLen l + 1 = byteLen (l ++ [c]) := by
          rw [byteLen_append, byteLen_cons, byteLen_nil, hc1]
          omega
        rw [hlen, dropBytes_byteLen_self]
        rfl
      · rw [lastSepAcc_append_singleton, if_pos hc] at h
        cases h
    · refine ⟨fun s h => ?_, fun h => ?_⟩
      · rw [lastSepAcc_append_singleton, if_neg (by simpa using hc)] at h
        have hb : s + 1 ≤ byteLen l := by
          have := lastSepAcc_bound l 0 none (fun s hh => by cases hh) s h
          omega
        rw [dropBytes_append_singleton _ _ _ hb]
        rw [List.all_append]
        have h1 := ih.1 s h
        rw [h1]
        simpa [isSep] using hc
      · rw [lastSepAcc_append_singleton, if_neg (by simpa using hc)] at h
        rw [List.all_append]
        have h1 := ih.2 h
        rw [h1]
        simpa [isSep] using hc

/-- Segment of `split_dir_and_segment` contains no separator. -/
theorem splitDirSeg_no_sep (p : Str) :
    (splitDirSeg p).2.all (fun c => !isSep c) = true := by
  unfold splitDirSeg
  cases hfind : lastSepAcc p 0 none with
  | none => exact (lastSep_no_sep_after p).2 hfind
  | some s => exact (lastSep_no_sep_after p).1 s hfind

/-- Re-joining the split halves gives back the path text. -/
theorem splitDirSeg_append (p : Str) :
    (splitDirSeg p).1 ++ (splitDirSeg p).2 = p := by
  unfold splitDirSeg
  cases lastSepAcc p 0 none with
  | none => rfl
  | some s => exact takeBytes_append_dropBytes (s + 1) p

/-- C7.  Round-trip invariant: every `PathQuery` produced by
`find_prefix_query` or by `build_relative_query` satisfies
`dirPart ++ segmentPrefix = rawPathText`, and the segment prefix
contains no path separator. -/
theorem c7_pathquery_roundtrip :
    (∀ (content : Str) (config : ConfigM) (q : PathQueryM),
      findPrefixQuery content config = some q →
      q.dirPart ++ q.segmentPart = q.pathStr ∧
        q.segmentPart.all (fun c => !isSep c) = true) ∧
    (∀ content : Str,
      (buildRelativeQuery content).dirPart ++
          (buildRelativeQuery content).segmentPart =
        (buildRelativeQuery content).pathStr ∧
      (buildRelativeQuery content).segmentPart.all (fun c => !isSep c) = true) := by
  constructor
  · intro content config q h
    unfold findPrefixQuery at h
    by_cases hempty : content = []
    · simp [hempty] at h
    · simp only [hempty, if_neg, reduceIte] at h
      cases hstart : fpqGo config content 0 none none with
      | none => simp [hstart] at h
      | some start =>
        simp only [hstart] at h
        cases h
        exact ⟨splitDirSeg_append _, splitDirSeg_no_sep _⟩
  · intro content
    exact ⟨splitDirSeg_append _, splitDirSeg_no_sep _⟩

/-- Witness for C7 at a concrete query. -/
theorem c7_pathquery_roundtrip_witness :
    ∃ q, findPrefixQuery (strL "./dir/pa") defaultConfig = some q ∧
      q.dirPart ++ q.segmentPart = q.pathStr ∧
      q.segmentPart.all (fun c => !isSep c) = true := by
  refine ⟨_, rfl, c7_pathquery_roundtrip.1 (strL "./dir/pa") defaultConfig _ rfl⟩

/-! ## C3: bare tilde query -/

/-- C3 counterexample: the classifier maps the bare query `~` to a
`Home` query whose directory part is empty and whose segment prefix is
`~` itself, not to directory part `~/` with an empty segment. -/
theorem c3_counterexample :
    findPrefixQuery (strL "~") defaultConfig =
      some { dirPart := [], segmentPart := strL "~",
             pathStr := strL "~", prefixKind := PrefixKindM.Home } ∧
    findPrefixQuery (strL "~") defaultConfig ≠
      some { dirPart := strL "~/", segmentPart := [],
             pathStr := strL "~", prefixKind := PrefixKindM.Home } := by
  decide

/-- C3 amended: a bare `~` query is classified `Home`, with an empty
directory part and segment prefix `~`. -/
theorem c3_bare_tilde :
    findPrefixQuery (strL "~") defaultConfig =
      some { dirPart := [], segmentPart := strL "~",
             pathStr := strL "~", prefixKind := PrefixKindM.Home } := by
  decide

/-! ## C4: first-positional-argument detection -/

/-- C4 counterexample: in `open(x "` the text between the opening
parenthesis and the string start is `x `, which contains neither a comma
nor an equals sign, yet the detected context reports the string as not
the first positional argument. -/
theorem c4_counterexample :
    detectCallContext (strL "open(x \"") 7 =
      some { fullName := strL "open", baseName := strL "open",
             argIsFirst := false, namedArg := none } ∧
    findOpenIdx (windowOf (strL "open(x \"") 7) = some 4 ∧
    dropBytes (4 + 1) (windowOf (strL "open(x \"") 7) = strL "x " ∧
    (strL "x ").contains ',' = false ∧
    (strL "x ").contains '=' = false := by
  decide

theorem trimEndL_sublist (l : Str) : List.Sublist (trimEndL l) l := by
  unfold trimEndL
  have h : List.Sublist (l.reverse.dropWhile Char.isWhitespace) l.reverse :=
    List.dropWhile_sublist _
  have h2 := List.Sublist.reverse h
  rwa [List.reverse_reverse] at h2

theorem trimL_sublist (l : Str) : List.Sublist (trimL l) l := by
  unfold trimL
  exact (trimEndL_sublist _).trans (List.dropWhile_sublist _)

theorem mem_of_mem_trimL (l : Str) (c : Char) (h : c ∈ trimL l) : c ∈ l :=
  (trimL_sublist l).subset h

theorem lastIdxAcc_eq_acc (p : Char → Bool) (l : Str)
    (h : ∀ c ∈ l, p c = false) :
    ∀ (idx : Nat) (acc : Option Nat), lastIdxAcc p l idx acc = acc := by
  induction l with
  | nil => intro idx acc; rfl
  | cons ch rest ih =>
    intro idx acc
    simp only [lastIdxAcc, h ch (List.mem_cons_self _ _), Bool.false_eq_true,
      if_false]
    exact ih (fun c hc => h c (List.mem_cons_of_mem _ hc)) _ _

theorem analyzeArgText_fst_false (t : Str) (htr : trimL t ≠ []) :
    (analyzeArgText t).1 = false := by
  simp only [analyzeArgText]
  rw [if_neg htr]
  repeat' split
  all_goals rfl

theorem analyzeArgText_of_whitespace (t : Str) (htr : trimL t = []) :
    analyzeArgText t = (true, none) := by
  simp only [analyzeArgText]
  rw [if_pos htr]

theorem analyzeArgText_plain (t : Str) (htr : trimL t ≠ [])
    (hc : ',' ∉ t) (he : '=' ∉ t) :
    analyzeArgText t = (false, none) := by
  have hc' : (trimL t).contains ',' = false := by
    cases hcc : (trimL t).contains ','
    · rfl
    · exact absurd (mem_of_mem_trimL _ _ (List.elem_iff.mp hcc)) hc
  have he' : ∀ c ∈ trimL t, (fun c => decide (c = '=')) c = false :=
    fun c hc2 =>
      decide_eq_false (fun heq => he (heq ▸ mem_of_mem_trimL _ _ hc2))
  simp only [analyzeArgText]
  rw [if_neg htr, lastIdxAcc_eq_acc _ _ he' 0 none]
  simp only [hc', Bool.false_eq_true, if_false]

set_option maxRecDepth 8000 in
/-- C4 amended: the detected context reports a sole first positional
argument (`arg_is_first = true` and no named-argument name) exactly when
the text between the opening parenthesis and the string start is empty
or whitespace-only; and whenever that text is not whitespace-only yet
contains neither a comma nor an equals sign, the context reports
`arg_is_first = false` and no named-argument name. -/
theorem c4_first_positional (text : Str) (off : Nat) (ctx : CallContextM)
    (oi : Nat) (h : detectCallContext text off = some ctx)
    (hoi : findOpenIdx (windowOf text off) = some oi) :
    ((ctx.argIsFirst = true ∧ ctx.namedArg = none) ↔
      trimL (dropBytes (oi + 1) (windowOf text off)) = []) ∧
    (trimL (dropBytes (oi + 1) (windowOf text off)) ≠ [] →
      ',' ∉ dropBytes (oi + 1) (windowOf text off) →
      '=' ∉ dropBytes (oi + 1) (windowOf text off) →
      ctx.argIsFirst = false ∧ ctx.namedArg = none) := by
  simp only [detectCallContext, hoi] at h
  by_cases hfn :
      dropBytes
        (nameStartOf (trimEndL (takeBytes oi (windowOf text off))))
        (trimEndL (takeBytes oi (windowOf text off))) = []
  · simp only [hfn, if_pos, reduceIte] at h
    cases h
  · simp only [hfn, if_neg, reduceIte] at h
    have hctx := Option.some.inj h
    have h1 : ctx.argIsFirst =
        (analyzeArgText (dropBytes (oi + 1) (windowOf text off))).1 := by
      rw [← hctx]
    have h2 : ctx.namedArg =
        (analyzeArgText (dropBytes (oi + 1) (windowOf text off))).2 := by
      rw [← hctx]
    refine ⟨⟨fun hpair => ?_, fun htr => ?_⟩, fun htr hc he => ?_⟩
    · by_contra htr
      exact Bool.false_ne_true
        ((analyzeArgText_fst_false _ htr).symm.trans
          (h1.symm.trans hpair.1))
    · have hw := analyzeArgText_of_whitespace _ htr
      exact ⟨h1.trans (congrArg Prod.fst hw), h2.trans (congrArg Prod.snd hw)⟩
    · have hp := analyzeArgText_plain _ htr hc he
      exact ⟨h1.trans (congrArg Prod.fst hp), h2.trans (congrArg Prod.snd hp)⟩

/-- Context value of the C4 witness. -/
def c4wCtx : CallContextM :=
  { fullName := strL "open", baseName := strL "open",
    argIsFirst := true, namedArg := none }

/-- Witness for C4 at the concrete call `open("`. -/
theorem c4_first_positional_witness :
    detectCallContext (strL "open(\"") 5 = some c4wCtx ∧
    findOpenIdx (windowOf (strL "open(\"") 5) = some 4 ∧
    (((c4wCtx.argIsFirst = true ∧ c4wCtx.namedArg = none) ↔
        trimL (dropBytes (4 + 1) (windowOf (strL "open(\"") 5)) = []) ∧
      (trimL (dropBytes (4 + 1) (windowOf (strL "open(\"") 5)) ≠ [] →
        ',' ∉ dropBytes (4 + 1) (windowOf (strL "open(\"") 5) →
        '=' ∉ dropBytes (4 + 1) (windowOf (strL "open(\"") 5) →
        c4wCtx.argIsFirst = false ∧ c4wCtx.namedArg = none)) :=
  ⟨by decide, by decide,
   c4_first_positional (strL "open(\"") 5 c4wCtx 4 (by decide) (by decide)⟩

/-! ## C10: UTF-16 column conversion safety -/

theorem utf16LenL_nil : utf16LenL [] = 0 := rfl

theorem utf16LenL_cons (c : Char) (cs : Str) :
    utf16LenL (c :: cs) = utf16Size c + utf16LenL cs := by
  simp [utf16LenL]

theorem utf16LenL_append (a b : Str) :
    utf16LenL (a ++ b) = utf16LenL a + utf16LenL b := by
  simp [utf16LenL]

theorem utf16LenL_prefix_le (a b : Str) (h : a <+: b) :
    utf16LenL a ≤ utf16LenL b := by
  obtain ⟨t, rfl⟩ := h
  rw [utf16LenL_append]
  omega

theorem utf16LenL_take_mono (l : Str) (k k' : Nat) (h : k ≤ k') :
    utf16LenL (l.take k) ≤ utf16LenL (l.take k') := by
  refine utf16LenL_prefix_le _ _ ?_
  have h2 := List.take_prefix k (l.take k')
  rwa [List.take_take, Nat.min_eq_left h] at h2

theorem byteLen_snoc (pre : Str) (ch : Char) :
    byteLen (pre ++ [ch]) = byteLen pre + ch.utf8Size := by
  simp [byteLen]

theorem utf16LenL_snoc (pre : Str) (ch : Char) :
    utf16LenL (pre ++ [ch]) = utf16LenL pre + utf16Size ch := by
  simp [utf16LenL]

theorem take_snoc_of_append_cons (line pre : Str) (ch : Char) (rest : Str)
    (hline : line = pre ++ ch :: rest) :
    line.take (pre.length + 1) = pre ++ [ch] := by
  rw [hline, List.take_append]
  simp [List.take_succ_cons]

theorem u16Go_none_iff (line : Str) (col : Nat) :
    ∀ (suf pre : Str), line = pre ++ suf → utf16LenL pre ≤ col →
      (u16Go line col suf (byteLen pre) (utf16LenL pre) = none ↔
        utf16LenL pre + utf16LenL suf < col) := by
  intro suf
  induction suf with
  | nil =>
    intro pre _ hle
    simp only [u16Go, utf16LenL_nil]
    constructor
    · intro h
      by_cases hc : utf16LenL pre = col
      · simp [hc] at h
      · omega
    · intro h
      have : utf16LenL pre ≠ col := by omega
      simp [this]
  | cons ch rest ih =>
    intro pre hline hle
    simp only [u16Go]
    by_cases h1 : utf16LenL pre + utf16Size ch > col
    · simp only [h1, if_pos, reduceIte]
      rw [utf16LenL_cons]
      constructor
      · intro h; cases h
      · intro h; omega
    · simp only [h1, if_neg, reduceIte]
      by_cases h2 : utf16LenL pre + utf16Size ch = col
      · simp only [h2, if_pos, reduceIte]
        rw [utf16LenL_cons]
        constructor
        · intro h; cases h
        · intro h; omega
      · simp only [h2, if_neg, reduceIte]
        have hpre' : line = (pre ++ [ch]) ++ rest := by rw [hline]; simp
        have := ih (pre ++ [ch]) hpre' (by rw [utf16LenL_snoc]; omega)
        rw [byteLen_snoc, utf16LenL_snoc] at this
        rw [this, utf16LenL_cons]
        omega

theorem u16Go_some_boundary (line : Str) (col : Nat) :
    ∀ (suf pre : Str) (r : Nat), line = pre ++ suf →
      u16Go line col suf (byteLen pre) (utf16LenL pre) = some r →
      ∃ k, k ≤ line.length ∧ r = byteLen (line.take k) := by
  intro suf
  induction suf with
  | nil =>
    intro pre r _ h
    simp only [u16Go] at h
    by_cases hc : utf16LenL pre = col
    · simp only [hc, if_pos, reduceIte] at h
      cases h
      exact ⟨line.length, Nat.le_refl _, by rw [List.take_length]⟩
    · simp [hc] at h
  | cons ch rest ih =>
    intro pre r hline h
    simp only [u16Go] at h
    by_cases h1 : utf16LenL pre + utf16Size ch > col
    · simp only [h1, if_pos, reduceIte] at h
      cases h
      refine ⟨pre.length, ?_, ?_⟩
      · rw [hline]; simp
      · rw [hline, List.take_left]
    · simp only [h1, if_neg, reduceIte] at h
      by_cases h2 : utf16LenL pre + utf16Size ch = col
      · simp only [h2, if_pos, reduceIte] at h
        cases h
        refine ⟨pre.length + 1, ?_, ?_⟩
        · rw [hline]; simp
        · rw [take_snoc_of_append_cons line pre ch rest hline, byteLen_snoc]
      · simp only [h2, if_neg, reduceIte] at h
        have hpre' : line = (pre ++ [ch]) ++ rest := by rw [hline]; simp
        refine ih (pre ++ [ch]) r hpre' ?_
        rw [byteLen_snoc, utf16LenL_snoc]
        exact h

theorem u16Go_inside_char (line : Str) (col : Nat) :
    ∀ (suf pre : Str), line = pre ++ suf →
      ∀ j, pre.length ≤ j → utf16LenL (line.take j) < col →
        col < utf16LenL (line.take (j + 1)) →
        u16Go line col suf (byteLen pre) (utf16LenL pre) =
          some (byteLen (line.take j)) := by
  intro suf
  induction suf with
  | nil =>
    intro pre hline j hj hlt hgt
    exfalso
    have hlen : line.length ≤ j := by
      rw [hline]
      simpa using hj
    have e1 : line.take j = line := List.take_of_length_le hlen
    have e2 : line.take (j + 1) = line := List.take_of_length_le (by omega)
    rw [e1] at hlt
    rw [e2] at hgt
    omega
  | cons ch rest ih =>
    intro pre hline j hj hlt hgt
    rcases Nat.lt_or_ge j line.length with hjlt | hjge
    · by_cases hj0 : pre.length = j
      · subst hj0
        have htake : line.take pre.length = pre := by
          rw [hline, List.take_left]
        have htake1 : line.take (pre.length + 1) = pre ++ [ch] :=
          take_snoc_of_append_cons line pre ch rest hline
        simp only [u16Go]
        have hcond : utf16LenL pre + utf16Size ch > col := by
          rw [htake1, utf16LenL_snoc] at hgt
          omega
        simp only [hcond, if_pos, reduceIte]
        rw [htake]
      · have hlt' : pre.length < j := by omega
        simp only [u16Go]
        have hmono : utf16LenL (line.take (pre.length + 1)) ≤
            utf16LenL (line.take j) := utf16LenL_take_mono line _ _ (by omega)
        have htake1 : line.take (pre.length + 1) = pre ++ [ch] :=
          take_snoc_of_append_cons line pre ch rest hline
        have hc : utf16LenL pre + utf16Size ch ≤ utf16LenL (line.take j) := by
          rw [htake1, utf16LenL_snoc] at hmono
          omega
        have h1 : ¬(utf16LenL pre + utf16Size ch > col) := by omega
        have h2 : ¬(utf16LenL pre + utf16Size ch = col) := by omega
        simp only [h1, h2, if_neg, reduceIte]
        have hpre' : line = (pre ++ [ch]) ++ rest := by rw [hline]; simp
        have := ih (pre ++ [ch]) hpre' j (by simp; omega) hlt hgt
        rw [byteLen_snoc, utf16LenL_snoc] at this
        exact this
    · exfalso
      have e1 : line.take j = line := List.take_of_length_le (by omega)
      have e2 : line.take (j + 1) = line := List.take_of_length_le (by omega)
      rw [e1] at hlt
      rw [e2] at hgt
      omega

/-- C10.  Cursor-conversion safety: the UTF-16 column conversion
returns nothing exactly when the column exceeds the line's UTF-16
length (and the request then yields an empty list); any returned byte
index lies on a character boundary of the line; and a column falling
strictly inside a character (e.g. a surrogate pair) maps to the start
of that character, so slicing the line at the cursor never splits a
UTF-8 code point. -/
theorem c10_cursor_conversion_safety :
    (∀ (line : Str) (col : Nat),
      utf16ColToByte line col = none ↔ utf16LenL line < col) ∧
    (∀ (line : Str) (col r : Nat), utf16ColToByte line col = some r →
      ∃ k, k ≤ line.length ∧ r = byteLen (line.take k)) ∧
    (∀ (line : Str) (col j : Nat),
      utf16LenL (line.take j) < col → col < utf16LenL (line.take (j + 1)) →
      utf16ColToByte line col = some (byteLen (line.take j))) ∧
    (∀ (fs : Str → Option (List (Str × Bool))) (home : Option Str)
        (now : Nat) (state : ServerStateM) (params : ParamsM)
        (doc : DocumentStateM) (lineText : Str),
      (state.documents.find? (fun d => d.1 = params.uri)).map
          (fun d => d.2) = some doc →
      getLine doc.text params.line = some lineText →
      utf16ColToByte lineText params.character = none →
      (completionItems fs home now state params).1 = []) := by
  refine ⟨?_, ?_, ?_, ?_⟩
  · intro line col
    have h := u16Go_none_iff line col line [] (by simp) (by simp [utf16LenL_nil])
    simpa [utf16ColToByte, byteLen_nil, utf16LenL_nil] using h
  · intro line col r h
    exact u16Go_some_boundary line col line [] r (by simp)
      (by simpa [utf16ColToByte, byteLen_nil, utf16LenL_nil] using h)
  · intro line col j hlt hgt
    have h := u16Go_inside_char line col line [] (by simp) j (by simp) hlt hgt
    simpa [utf16ColToByte, byteLen_nil, utf16LenL_nil] using h
  · intro fs home now state params doc lineText hdoc hline hnone
    rcases Bool.eq_false_or_eq_true state.config.enable with he | he <;>
      rcases Bool.eq_false_or_eq_true
        (isPythonDocument params.uri doc.languageId) with hp | hp <;>
      simp [completionItems, hdoc, hline, hnone, he, hp]

/-- Document of the C10 witness. -/
def c10Doc : DocumentStateM :=
  { text := strL "x", languageId := some (strL "python") }

/-- Server state of the C10 witness. -/
def c10State : ServerStateM :=
  { documents := [({ scheme := strL "file", path := strL "/w/d.py" }, c10Doc)]
    rootUri := none
    cache := DirCacheM.new 500 64
    config := defaultConfig
    configWarned := false }

/-- Request of the C10 witness: UTF-16 column 99 on a 1-unit line. -/
def c10Params : ParamsM :=
  { uri := { scheme := strL "file", path := strL "/w/d.py" },
    line := 0, character := 99 }

/-- Witness for C10: a column inside the surrogate pair of U+1D11E maps
to byte 0, and a request whose column exceeds the line length yields an
empty list. -/
theorem c10_cursor_conversion_safety_witness :
    utf16ColToByte [Char.ofNat 119070] 1 =
      some (byteLen (([Char.ofNat 119070] : Str).take 0)) ∧
    (completionItems (fun _ => none) none 0 c10State c10Params).1 = [] :=
  ⟨c10_cursor_conversion_safety.2.2.1 [Char.ofNat 119070] 1 0 (by decide)
     (by decide),
   c10_cursor_conversion_safety.2.2.2 (fun _ => none) none 0 c10State
     c10Params c10Doc (strL "x") (by decide) (by decide) (by decide)⟩

/-! ## C9: Python-document gate -/

/-- C9.  For every completion request whose document was opened with a
language id other than `python` (ASCII case-insensitively) and whose
URI path does not end in `.py`, the core returns the empty completion
list. -/
theorem c9_python_gate (fs : Str → Option (List (Str × Bool)))
    (home : Option Str) (now : Nat) (state : ServerStateM)
    (params : ParamsM) (doc : DocumentStateM) (lang : Str)
    (hdoc : (state.documents.find? (fun d => d.1 = params.uri)).map
      (fun d => d.2) = some doc)
    (hlang : doc.languageId = some lang)
    (hne : asciiLower lang ≠ strL "python")
    (hsuf : (strL ".py").isSuffixOf params.uri.path = false) :
    (completionItems fs home now state params).1 = [] := by
  have hpy : isPythonDocument params.uri doc.languageId = false := by
    unfold isPythonDocument
    rw [hlang]
    rw [show asciiLower (strL "python") = strL "python" from by decide]
    simp [hne, hsuf]
  rcases Bool.eq_false_or_eq_true state.config.enable with he | he <;>
    simp [completionItems, hdoc, hpy, he]

/-- Document of the C9 witness: a Rust file. -/
def c9Doc : DocumentStateM :=
  { text := strL "open(\"./", languageId := some (strL "rust") }

/-- Server state of the C9 witness. -/
def c9State : ServerStateM :=
  { documents := [({ scheme := strL "file", path := strL "/w/d.rs" }, c9Doc)]
    rootUri := none
    cache := DirCacheM.new 500 64
    config := defaultConfig
    configWarned := false }

/-- Request of the C9 witness. -/
def c9Params : ParamsM :=
  { uri := { scheme := strL "file", path := strL "/w/d.rs" },
    line := 0, character := 8 }

/-- Witness for C9 at a concrete non-Python document. -/
theorem c9_python_gate_witness :
    (completionItems (fun _ => some [(strL "a", false)]) none 0 c9State
      c9Params).1 = [] :=
  c9_python_gate (fun _ => some [(strL "a", false)]) none 0 c9State c9Params
    c9Doc (strL "rust") (by decide) (by decide) (by decide) (by decide)

/-! ## Cache lemmas (C2, C6) -/

theorem findRemove_none (d : Str) (l : List CacheEntryM)
    (h : findRemove d l = none) : ∀ x ∈ l, x.dir ≠ d := by
  induction l with
  | nil => intro x hx; cases hx
  | cons e rest ih =>
    intro x hx
    by_cases he : e.dir = d
    · simp [findRemove, he] at h
    · simp only [findRemove, he, if_neg, reduceIte] at h
      cases hfr : findRemove d rest with
      | some p => rw [hfr] at h; simp at h
      | none =>
        rcases List.mem_cons.mp hx with hx | hx
        · subst hx; exact he
        · exact ih hfr x hx

theorem findRemove_some (d : Str) (l : List CacheEntryM)
    (e : CacheEntryM) (r : List CacheEntryM)
    (h : findRemove d l = some (e, r)) :
    e.dir = d ∧ ∃ a b, l = a ++ e :: b ∧ r = a ++ b ∧ ∀ x ∈ a, x.dir ≠ d := by
  induction l generalizing e r with
  | nil => cases h
  | cons e' rest ih =>
    by_cases he : e'.dir = d
    · simp only [findRemove, he, if_pos, reduceIte] at h
      cases h
      refine ⟨he, [], rest, rfl, rfl, ?_⟩
      intro x hx
      cases hx
    · simp only [findRemove, he, if_neg, reduceIte] at h
      cases hfr : findRemove d rest with
      | none => rw [hfr] at h; cases h
      | some p =>
        rw [hfr] at h
        cases p with
        | mk x r' =>
          simp only [Option.map_some, Option.some_inj] at h
          have hx : x = e := congrArg Prod.fst h
          have hr : e' :: r' = r := congrArg Prod.snd h
          obtain ⟨hdir, a, b, hl, hr', ha⟩ := ih (e := x) (r := r') hfr
          subst hx
          refine ⟨hdir, e' :: a, b, by rw [hl]; rfl, ?_, ?_⟩
          · rw [← hr, hr']
            rfl
          · intro y hy
            rcases List.mem_cons.mp hy with hy | hy
            · subst hy; exact he
            · exact ha y hy

theorem findRemove_perm (d : Str) (l : List CacheEntryM)
    (e : CacheEntryM) (r : List CacheEntryM)
    (h : findRemove d l = some (e, r)) : l.Perm (e :: r) := by
  obtain ⟨_, a, b, hl, hr, _⟩ := findRemove_some d l e r h
  rw [hl, hr]
  exact List.perm_middle

theorem truncGo_spec (maxE : Nat) :
    ∀ (fuel : Nat) (l : List CacheEntryM), l.length ≤ fuel →
      truncGo maxE fuel l = l.take maxE := by
  intro fuel
  induction fuel with
  | zero =>
    intro l hl
    have : l = [] := List.eq_nil_of_length_eq_zero (by omega)
    subst this
    simp [truncGo]
  | succ n ih =>
    intro l hl
    simp only [truncGo]
    by_cases hlen : l.length > maxE
    · simp only [hlen, if_pos, reduceIte]
      have hne : l ≠ [] := by
        intro h
        subst h
        simp at hlen
      rw [ih l.dropLast (by rw [List.length_dropLast]; omega)]
      conv_rhs => rw [← List.dropLast_append_getLast hne]
      rw [List.take_append_of_le_length (by rw [List.length_dropLast]; omega)]
    · simp only [hlen, if_neg, reduceIte]
      rw [List.take_of_length_le (by omega)]

theorem truncEntries_eq_take (maxE : Nat) (l : List CacheEntryM) :
    truncEntries maxE l = l.take maxE :=
  truncGo_spec maxE l.length l (Nat.le_refl _)

/-- Deque left after removing the first entry for `dir` (the state
`insert` pushes the fresh entry onto). -/
def insertRest (c : DirCacheM) (dir : Str) : List CacheEntryM :=
  match findRemove dir c.entries with
  | some p => p.2
  | none => c.entries

theorem insert_entries_eq (c : DirCacheM) (d : Str)
    (items : List DirEntryInfoM) (now : Nat) :
    (c.insert d items now).entries =
      (({ dir := d, items := items, timestamp := now } : CacheEntryM) ::
        insertRest c d).take c.maxEntries := by
  unfold DirCacheM.insert insertRest
  cases findRemove d c.entries with
  | none => simp [truncEntries_eq_take]
  | some p => simp [truncEntries_eq_take]

theorem insertRest_no_dir (c : DirCacheM) (d : Str)
    (h : (c.entries.map (fun e => e.dir)).Nodup) :
    ∀ x ∈ insertRest c d, x.dir ≠ d := by
  intro x hx
  cases hfr : findRemove d c.entries with
  | none =>
    simp only [insertRest, hfr] at hx
    exact findRemove_none d c.entries hfr x hx
  | some p =>
    simp only [insertRest, hfr] at hx
    obtain ⟨hdir, a, b, hl, hr, ha⟩ :=
      findRemove_some d c.entries p.1 p.2 (by rw [hfr])
    rw [hr] at hx
    rw [hl] at h
    simp only [List.map_append, List.map_cons] at h
    have hright := (List.nodup_append.mp h).2.1
    have hnotb : p.1.dir ∉ List.map (fun e => e.dir) b :=
      (List.nodup_cons.mp hright).1
    rcases List.mem_append.mp hx with hx | hx
    · exact ha x hx
    · intro hxd
      refine hnotb ?_
      rw [hdir, ← hxd]
      exact List.mem_map_of_mem _ hx

theorem insertRest_nodup (c : DirCacheM) (d : Str)
    (h : (c.entries.map (fun e => e.dir)).Nodup) :
    ((insertRest c d).map (fun e => e.dir)).Nodup := by
  cases hfr : findRemove d c.entries with
  | none => simpa only [insertRest, hfr] using h
  | some p =>
    have hperm := findRemove_perm d c.entries p.1 p.2 (by rw [hfr])
    have h2 := (hperm.map (fun e => e.dir)).nodup_iff.mp h
    simp only [List.map_cons] at h2
    simpa only [insertRest, hfr] using h2.of_cons

/-! ## C2: cache insert / get behaviour -/

/-- C2 counterexample: with TTL 5, inserting at tick 0 and reading at
tick 10 returns nothing and removes the entry from the cache entirely
(the expired entry is dropped), so it is not retained for capacity
purposes. -/
theorem c2_counterexample :
    ((((DirCacheM.new 5 8).insert (strL "/d")
        [{ name := strL "a", isDir := false }] 0).get (strL "/d") 10).1 =
      none) ∧
    (((DirCacheM.new 5 8).insert (strL "/d")
        [{ name := strL "a", isDir := false }] 0).get (strL "/d") 10).2.entries
      = [] := by
  decide

/-- C2 amended: with capacity at least 1, `insert(d, L)` followed by
`get(d)` within the TTL returns `L`; once the TTL has elapsed, `get(d)`
returns nothing and drops the entry for `d` from the cache (it is not
retained for capacity purposes). -/
theorem c2_cache_insert_get (c : DirCacheM) (d : Str)
    (L : List DirEntryInfoM) (t1 t2 : Nat) :
    (1 ≤ c.maxEntries → t2 - t1 ≤ c.ttl →
      ((c.insert d L t1).get d t2).1 = some L) ∧
    ((c.entries.map (fun e => e.dir)).Nodup → c.ttl < t2 - t1 →
      ((c.insert d L t1).get d t2).1 = none ∧
      ∀ e ∈ ((c.insert d L t1).get d t2).2.entries, e.dir ≠ d) := by
  have hentries := insert_entries_eq c d L t1
  have httl : (c.insert d L t1).ttl = c.ttl := rfl
  constructor
  · intro hmax hfresh
    obtain ⟨m, hm⟩ : ∃ m, c.maxEntries = m + 1 :=
      ⟨c.maxEntries - 1, by omega⟩
    unfold DirCacheM.get
    rw [hentries, hm, List.take_succ_cons]
    simp only [findRemove, if_pos, reduceIte]
    rw [httl]
    simp [hfresh]
  · intro hnodup hstale
    have hnod := insertRest_no_dir c d hnodup
    have hnotle : ¬(t2 - t1 ≤ c.ttl) := by omega
    cases hmax : c.maxEntries with
    | zero =>
      have hE : (c.insert d L t1).entries = [] := by
        rw [hentries, hmax, List.take_zero]
      have hget : (c.insert d L t1).get d t2 = (none, c.insert d L t1) := by
        simp [DirCacheM.get, hE, findRemove]
      rw [hget]
      refine ⟨rfl, ?_⟩
      intro e he
      rw [hE] at he
      cases he
    | succ m =>
      have hE : (c.insert d L t1).entries =
          ({ dir := d, items := L, timestamp := t1 } : CacheEntryM) ::
            (insertRest c d).take m := by
        rw [hentries, hmax, List.take_succ_cons]
      have hget : (c.insert d L t1).get d t2 =
          (none, { c.insert d L t1 with
                    entries := (insertRest c d).take m }) := by
        simp [DirCacheM.get, hE, findRemove, httl, hnotle]
      rw [hget]
      refine ⟨rfl, ?_⟩
      intro e he
      exact hnod e (List.mem_of_mem_take he)

/-- Witness for C2: a fresh read at tick 3 returns the listing, a stale
read at tick 9 returns nothing. -/
theorem c2_cache_insert_get_witness :
    (((DirCacheM.new 5 8).insert (strL "/d")
        [{ name := strL "a", isDir := false }] 0).get (strL "/d") 3).1 =
      some [{ name := strL "a", isDir := false }] ∧
    (((DirCacheM.new 5 8).insert (strL "/d")
        [{ name := strL "a", isDir := false }] 0).get (strL "/d") 9).1 =
      none :=
  ⟨(c2_cache_insert_get (DirCacheM.new 5 8) (strL "/d")
      [{ name := strL "a", isDir := false }] 0 3).1 (by decide) (by decide),
   ((c2_cache_insert_get (DirCacheM.new 5 8) (strL "/d")
      [{ name := strL "a", isDir := false }] 0 9).2 (by decide)
      (by decide)).1⟩

/-! ## C6: cache invariants and LRU eviction -/

/-- Invariant of the directory cache: distinct directories, size within
capacity. -/
def cacheInv (c : DirCacheM) : Prop :=
  (c.entries.map (fun e => e.dir)).Nodup ∧
    c.entries.length ≤ c.maxEntries

theorem get_preserves_inv (c : DirCacheM) (d : Str) (now : Nat)
    (h : cacheInv c) : cacheInv ((c.get d now).2) := by
  obtain ⟨h1, h2⟩ := h
  unfold DirCacheM.get
  cases hfr : findRemove d c.entries with
  | none => exact ⟨h1, h2⟩
  | some p =>
    obtain ⟨hdir, a, b, hl, hr, ha⟩ :=
      findRemove_some d c.entries p.1 p.2 (by rw [hfr])
    have hperm : c.entries.Perm (p.1 :: p.2) :=
      findRemove_perm d c.entries p.1 p.2 (by rw [hfr])
    by_cases hfresh : now - p.1.timestamp ≤ c.ttl
    · simp only [hfresh, if_pos, reduceIte]
      constructor
      · exact (hperm.map (fun e => e.dir)).nodup_iff.mp h1
      · have := hperm.length_eq
        simpa using (by omega : (p.1 :: p.2).length ≤ c.maxEntries)
    · simp only [hfresh, if_neg, reduceIte]
      have hsub : p.2.Sublist c.entries := by
        rw [hl, hr]
        exact (List.sublist_cons_self p.1 b).append_left a
      constructor
      · exact h1.sublist (hsub.map (fun e => e.dir))
      · have := hsub.length_le
        simpa using (by omega : p.2.length ≤ c.maxEntries)

theorem insert_preserves_inv (c : DirCacheM) (d : Str)
    (items : List DirEntryInfoM) (now : Nat)
    (h : cacheInv c) : cacheInv (c.insert d items now) := by
  obtain ⟨h1, _⟩ := h
  have hmax : (c.insert d items now).maxEntries = c.maxEntries := rfl
  rw [cacheInv, insert_entries_eq, hmax]
  constructor
  · have hnodup : ((({ dir := d, items := items, timestamp := now } :
        CacheEntryM) :: insertRest c d).map (fun e => e.dir)).Nodup := by
      rw [List.map_cons]
      refine List.nodup_cons.mpr ⟨?_, insertRest_nodup c d h1⟩
      intro hmem
      obtain ⟨x, hx, hxd⟩ := List.mem_map.mp hmem
      exact insertRest_no_dir c d h1 x hx hxd
    exact hnodup.sublist
      ((List.take_sublist _ _).map (fun e : CacheEntryM => e.dir))
  · exact List.length_take_le _ _

theorem updateLimits_preserves_inv (c : DirCacheM) (ttl maxE : Nat)
    (h : cacheInv c) : cacheInv (c.updateLimits ttl maxE) := by
  obtain ⟨h1, _⟩ := h
  unfold DirCacheM.updateLimits
  rw [cacheInv, truncEntries_eq_take]
  exact ⟨h1.sublist
      ((List.take_sublist _ _).map (fun e : CacheEntryM => e.dir)),
    List.length_take_le _ _⟩

/-- Cache operation, for stating the invariant over operation
sequences. -/
inductive CacheOpM where
  | get (dir : Str) (now : Nat)
  | insert (dir : Str) (items : List DirEntryInfoM) (now : Nat)
  | updateLimits (ttl maxEntries : Nat)

/-- State transition of one cache operation. -/
def applyOp (c : DirCacheM) : CacheOpM → DirCacheM
  | CacheOpM.get d now => (c.get d now).2
  | CacheOpM.insert d items now => c.insert d items now
  | CacheOpM.updateLimits t m => c.updateLimits t m

theorem foldl_preserves_inv (ops : List CacheOpM) :
    ∀ (c : DirCacheM), cacheInv c → cacheInv (ops.foldl applyOp c) := by
  induction ops with
  | nil => intro c h; exact h
  | cons op rest ih =>
    intro c h
    refine ih (applyOp c op) ?_
    cases op with
    | get d now => exact get_preserves_inv c d now h
    | insert d items now => exact insert_preserves_inv c d items now h
    | updateLimits t m => exact updateLimits_preserves_inv c t m h

/-- C6.  After any sequence of `get` / `insert` / `update_limits`
operations from a fresh cache, no two entries share a directory and the
entry count is within the capacity; an `insert` keeps exactly the
most-recently-used prefix of the deque obtained by pushing the new
entry at the front (so whatever is evicted is the tail at the
least-recently-used end, opposite to where hits and inserts are
placed), and `update_limits` likewise truncates from the
least-recently-used end. -/
theorem c6_cache_invariant :
    (∀ (ttl maxE : Nat) (ops : List CacheOpM),
      ((ops.foldl applyOp (DirCacheM.new ttl maxE)).entries.map
          (fun e => e.dir)).Nodup ∧
      (ops.foldl applyOp (DirCacheM.new ttl maxE)).entries.length ≤
        (ops.foldl applyOp (DirCacheM.new ttl maxE)).maxEntries) ∧
    (∀ (c : DirCacheM) (d : Str) (items : List DirEntryInfoM) (now : Nat),
      (c.insert d items now).entries =
        (({ dir := d, items := items, timestamp := now } : CacheEntryM) ::
          insertRest c d).take c.maxEntries) ∧
    (∀ (c : DirCacheM) (ttl maxE : Nat),
      (c.updateLimits ttl maxE).entries = c.entries.take maxE) := by
  refine ⟨?_, insert_entries_eq, ?_⟩
  · intro ttl maxE ops
    exact foldl_preserves_inv ops (DirCacheM.new ttl maxE)
      ⟨List.nodup_nil, by simp [DirCacheM.new]⟩
  · intro c ttl maxE
    unfold DirCacheM.updateLimits
    rw [truncEntries_eq_take]

/-! ## C5: configuration loading -/

/-- Initial server state of the C5 counterexample. -/
def c5State0 : ServerStateM :=
  { documents := [], rootUri := none, cache := DirCacheM.new 500 64,
    config := defaultConfig, configWarned := false }

/-- Well-typed settings payload setting `max_results` to 20. -/
def c5Good : JsonM := JsonM.obj [(strL "max_results", JsonM.num 20)]

/-- Mistyped settings payload: `max_results` is a boolean. -/
def c5Bad : JsonM := JsonM.obj [(strL "max_results", JsonM.bool true)]

/-- State after the well-typed load. -/
def c5State1 : ServerStateM := (applyConfigUpdate c5State0 c5Good).1

/-- C5 counterexample: after a load set `max_results` to 20, a reload
with a mistyped `max_results` resets the field to its default 80 rather
than keeping the previous value 20; and a second mistyped load records
no warning at all, because the warned flag is sticky for the process
lifetime. -/
theorem c5_counterexample :
    c5State1.config.maxResults = 20 ∧
    (applyConfigUpdate c5State1 c5Bad).1.config.maxResults = 80 ∧
    (applyConfigUpdate c5State1 c5Bad).2 = true ∧
    (applyConfigUpdate (applyConfigUpdate c5State1 c5Bad).1 c5Bad).2 =
      false := by
  decide

/-- The by-key view of a configuration field, used to speak about "the
field named `k`" uniformly. -/
inductive FieldValM where
  | b (x : Bool)
  | n (x : Nat)
  | cg (x : ContextGatingM)
  | bd (x : BaseDirStrategyM)
  | wr (x : WorkspaceRootStrategyM)
  | ss (x : StatStrategyM)
  | gl (x : List Str)
  deriving DecidableEq, Repr

/-- The configuration field the settings key `k` refers to. -/
def configField (k : Str) (c : ConfigM) : Option FieldValM :=
  if k = strL "enable" then some (FieldValM.b c.enable)
  else if k = strL "path_prefix_fallback" then
    some (FieldValM.b c.pathPrefixFallback)
  else if k = strL "context_gating" then some (FieldValM.cg c.contextGating)
  else if k = strL "base_dir" then some (FieldValM.bd c.baseDir)
  else if k = strL "workspace_root_strategy" then
    some (FieldValM.wr c.workspaceRootStrategy)
  else if k = strL "max_results" then some (FieldValM.n c.maxResults)
  else if k = strL "show_hidden" then some (FieldValM.b c.showHidden)
  else if k = strL "include_files" then some (FieldValM.b c.includeFiles)
  else if k = strL "include_directories" then
    some (FieldValM.b c.includeDirectories)
  else if k = strL "directory_trailing_slash" then
    some (FieldValM.b c.directoryTrailingSlash)
  else if k = strL "ignore_globs" then some (FieldValM.gl c.ignoreGlobs)
  else if k = strL "prefer_forward_slashes" then
    some (FieldValM.b c.preferForwardSlashes)
  else if k = strL "expand_tilde" then some (FieldValM.b c.expandTilde)
  else if k = strL "windows_enable_drive_prefix" then
    some (FieldValM.b c.windowsEnableDrive)
  else if k = strL "windows_enable_unc" then
    some (FieldValM.b c.windowsEnableUnc)
  else if k = strL "cache_ttl_ms" then some (FieldValM.n c.cacheTtlMs)
  else if k = strL "cache_max_dirs" then some (FieldValM.n c.cacheMaxDirs)
  else if k = strL "stat_strategy" then some (FieldValM.ss c.statStrategy)
  else none

/-- Settings keys handled through `set_bool` (config.rs). -/
def boolKeysL : List Str :=
  [strL "enable", strL "path_prefix_fallback", strL "show_hidden",
   strL "include_files", strL "include_directories",
   strL "directory_trailing_slash", strL "prefer_forward_slashes",
   strL "expand_tilde", strL "windows_enable_drive_prefix",
   strL "windows_enable_unc"]

/-- Settings keys handled through `set_usize` / `set_u64` (config.rs). -/
def natKeysL : List Str :=
  [strL "max_results", strL "cache_ttl_ms", strL "cache_max_dirs"]

/-- String-enumeration settings keys (config.rs). -/
def enumKeysL : List Str :=
  [strL "context_gating", strL "base_dir",
   strL "workspace_root_strategy", strL "stat_strategy"]

/-- The settings key `k` is known and the JSON value `v` has the wrong
type for it. -/
def mistypedField (k : Str) (v : JsonM) : Bool :=
  (boolKeysL.contains k && v.asBool.isNone) ||
  (natKeysL.contains k && v.asU64.isNone) ||
  (enumKeysL.contains k && v.asStr.isNone) ||
  (k = strL "ignore_globs" && v.asArr.isNone)

/-- The wrong-type warning message for the settings key `k`. -/
def invalidTypeMsg (k : Str) : Str :=
  strL "invalid " ++ k ++ strL " type"

set_option maxHeartbeats 3200000 in
theorem applyField_sep (c : ConfigM) (ws : List Str) (f : Str × JsonM) :
    applyField (c, ws) f =
      ((applyField (c, []) f).1, ws ++ (applyField (c, []) f).2) := by
  rcases f with ⟨k2, v⟩
  by_cases h1 : k2 = strL "enable"
  · subst h1
    rcases hv : v.asBool with _ | x <;>
      simp +decide [applyField, setBoolField, hv]
  by_cases h2 : k2 = strL "path_prefix_fallback"
  · subst h2
    rcases hv : v.asBool with _ | x <;>
      simp +decide [applyField, setBoolField, hv]
  by_cases h3 : k2 = strL "context_gating"
  · subst h3
    rcases hv : v.asStr with _ | s
    · simp +decide [applyField, hv]
    · simp +decide [applyField, hv]
      try (split_ifs <;> simp)
  by_cases h4 : k2 = strL "base_dir"
  · subst h4
    rcases hv : v.asStr with _ | s
    · simp +decide [applyField, hv]
    · simp +decide [applyField, hv]
      try (split_ifs <;> simp)
  by_cases h5 : k2 = strL "workspace_root_strategy"
  · subst h5
    rcases hv : v.asStr with _ | s
    · simp +decide [applyField, hv]
    · simp +decide [applyField, hv]
      try (split_ifs <;> simp)
  by_cases h6 : k2 = strL "max_results"
  · subst h6
    rcases hv : v.asU64 with _ | x <;>
      simp +decide [applyField, setNatField, hv]
  by_cases h7 : k2 = strL "show_hidden"
  · subst h7
    rcases hv : v.asBool with _ | x <;>
      simp +decide [applyField, setBoolField, hv]
  by_cases h8 : k2 = strL "include_files"
  · subst h8
    rcases hv : v.asBool with _ | x <;>
      simp +decide [applyField, setBoolField, hv]
  by_cases h9 : k2 = strL "include_directories"
  · subst h9
    rcases hv : v.asBool with _ | x <;>
      simp +decide [applyField, setBoolField, hv]
  by_cases h10 : k2 = strL "directory_trailing_slash"
  · subst h10
    rcases hv : v.asBool with _ | x <;>
      simp +decide [applyField, setBoolField, hv]
  by_cases h11 : k2 = strL "ignore_globs"
  · subst h11
    rcases hv : v.asArr with _ | list
    · simp +decide [applyField, hv]
    · simp +decide [applyField, hv]
      try (split_ifs <;> simp)
  by_cases h12 : k2 = strL "prefer_forward_slashes"
  · subst h12
    rcases hv : v.asBool with _ | x <;>
      simp +decide [applyField, setBoolField, hv]
  by_cases h13 : k2 = strL "expand_tilde"
  · subst h13
    rcases hv : v.asBool with _ | x <;>
      simp +decide [applyField, setBoolField, hv]
  by_cases h14 : k2 = strL "windows_enable_drive_prefix"
  · subst h14
    rcases hv : v.asBool with _ | x <;>
      simp +decide [applyField, setBoolField, hv]
  by_cases h15 : k2 = strL "windows_enable_unc"
  · subst h15
    rcases hv : v.asBool with _ | x <;>
      simp +decide [applyField, setBoolField, hv]
  by_cases h16 : k2 = strL "cache_ttl_ms"
  · subst h16
    rcases hv : v.asU64 with _ | x <;>
      simp +decide [applyField, setNatField, hv]
  by_cases h17 : k2 = strL "cache_max_dirs"
  · subst h17
    rcases hv : v.asU64 with _ | x <;>
      simp +decide [applyField, setNatField, hv]
  by_cases h18 : k2 = strL "stat_strategy"
  · subst h18
    rcases hv : v.asStr with _ | s
    · simp +decide [applyField, hv]
    · simp +decide [applyField, hv]
      try (split_ifs <;> simp)
  simp [applyField, h1, h2, h3, h4, h5, h6, h7, h8, h9, h10, h11, h12, h13, h14, h15, h16, h17, h18]

theorem foldl_applyField_sep (l : List (Str × JsonM)) :
    ∀ (c : ConfigM) (ws : List Str),
      l.foldl applyField (c, ws) =
        ((l.foldl applyField (c, [])).1,
          ws ++ (l.foldl applyField (c, [])).2) := by
  induction l with
  | nil => intro c ws; simp
  | cons f l ih =>
    intro c ws
    rw [List.foldl_cons, List.foldl_cons]
    rcases hP : applyField (c, []) f with ⟨c2, u⟩
    rw [applyField_sep c ws f, hP]
    rw [ih c2 (ws ++ u), ih c2 u]
    simp

set_option maxHeartbeats 3200000 in
theorem applyField_mistyped (c : ConfigM) (ws : List Str) (k : Str)
    (v : JsonM) (hbad : mistypedField k v = true) :
    applyField (c, ws) (k, v) = (c, ws ++ [invalidTypeMsg k]) := by
  by_cases h1 : k = strL "enable"
  · subst h1
    simp +decide [mistypedField, Option.isNone_iff_eq_none] at hbad
    simp +decide [applyField, setBoolField, invalidTypeMsg, hbad]
  by_cases h2 : k = strL "path_prefix_fallback"
  · subst h2
    simp +decide [mistypedField, Option.isNone_iff_eq_none] at hbad
    simp +decide [applyField, setBoolField, invalidTypeMsg, hbad]
  by_cases h3 : k = strL "context_gating"
  · subst h3
    simp +decide [mistypedField, Option.isNone_iff_eq_none] at hbad
    simp +decide [applyField, invalidTypeMsg, hbad]
  by_cases h4 : k = strL "base_dir"
  · subst h4
    simp +decide [mistypedField, Option.isNone_iff_eq_none] at hbad
    simp +decide [applyField, invalidTypeMsg, hbad]
  by_cases h5 : k = strL "workspace_root_strategy"
  · subst h5
    simp +decide [mistypedField, Option.isNone_iff_eq_none] at hbad
    simp +decide [applyField, invalidTypeMsg, hbad]
  by_cases h6 : k = strL "max_results"
  · subst h6
    simp +decide [mistypedField, Option.isNone_iff_eq_none] at hbad
    simp +decide [applyField, setNatField, invalidTypeMsg, hbad]
  by_cases h7 : k = strL "show_hidden"
  · subst h7
    simp +decide [mistypedField, Option.isNone_iff_eq_none] at hbad
    simp +decide [applyField, setBoolField, invalidTypeMsg, hbad]
  by_cases h8 : k = strL "include_files"
  · subst h8
    simp +decide [mistypedField, Option.isNone_iff_eq_none] at hbad
    simp +decide [applyField, setBoolField, invalidTypeMsg, hbad]
  by_cases h9 : k = strL "include_directories"
  · subst h9
    simp +decide [mistypedField, Option.isNone_iff_eq_none] at hbad
    simp +decide [applyField, setBoolField, invalidTypeMsg, hbad]
  by_cases h10 : k = strL "directory_trailing_slash"
  · subst h10
    simp +decide [mistypedField, Option.isNone_iff_eq_none] at hbad
    simp +decide [applyField, setBoolField, invalidTypeMsg, hbad]
  by_cases h11 : k = strL "ignore_globs"
  · subst h11
    simp +decide [mistypedField, Option.isNone_iff_eq_none] at hbad
    simp +decide [applyField, invalidTypeMsg, hbad]
  by_cases h12 : k = strL "prefer_forward_slashes"
  · subst h12
    simp +decide [mistypedField, Option.isNone_iff_eq_none] at hbad
    simp +decide [applyField, setBoolField, invalidTypeMsg, hbad]
  by_cases h13 : k = strL "expand_tilde"
  · subst h13
    simp +decide [mistypedField, Option.isNone_iff_eq_none] at hbad
    simp +decide [applyField, setBoolField, invalidTypeMsg, hbad]
  by_cases h14 : k = strL "windows_enable_drive_prefix"
  · subst h14
    simp +decide [mistypedField, Option.isNone_iff_eq_none] at hbad
    simp +decide [applyField, setBoolField, invalidTypeMsg, hbad]
  by_cases h15 : k = strL "windows_enable_unc"
  · subst h15
    simp +decide [mistypedField, Option.isNone_iff_eq_none] at hbad
    simp +decide [applyField, setBoolField, invalidTypeMsg, hbad]
  by_cases h16 : k = strL "cache_ttl_ms"
  · subst h16
    simp +decide [mistypedField, Option.isNone_iff_eq_none] at hbad
    simp +decide [applyField, setNatField, invalidTypeMsg, hbad]
  by_cases h17 : k = strL "cache_max_dirs"
  · subst h17
    simp +decide [mistypedField, Option.isNone_iff_eq_none] at hbad
    simp +decide [applyField, setNatField, invalidTypeMsg, hbad]
  by_cases h18 : k = strL "stat_strategy"
  · subst h18
    simp +decide [mistypedField, Option.isNone_iff_eq_none] at hbad
    simp +decide [applyField, invalidTypeMsg, hbad]
  simp [mistypedField, boolKeysL, natKeysL, enumKeysL,
    List.contains_cons, List.contains_nil, beq_iff_eq,
    h1, h2, h3, h4, h5, h6, h7, h8, h9, h10, h11, h12, h13, h14, h15, h16, h17, h18] at hbad

set_option maxHeartbeats 3200000 in
theorem applyField_frame (cw : ConfigM × List Str) (k : Str)
    (f : Str × JsonM) (hne : f.1 ≠ k) :
    configField k (applyField cw f).1 = configField k cw.1 := by
  rcases f with ⟨k2, v⟩
  rcases cw with ⟨c, ws⟩
  replace hne : k2 ≠ k := hne
  by_cases h1 : k2 = strL "enable"
  · subst h1
    rcases hv : v.asBool with _ | x <;>
      simp +decide [applyField, setBoolField, configField, hv,
        Ne.symm hne]
  by_cases h2 : k2 = strL "path_prefix_fallback"
  · subst h2
    rcases hv : v.asBool with _ | x <;>
      simp +decide [applyField, setBoolField, configField, hv,
        Ne.symm hne]
  by_cases h3 : k2 = strL "context_gating"
  · subst h3
    rcases hv : v.asStr with _ | s
    · simp +decide [applyField, configField, hv]
    · simp +decide [applyField, hv]
      try (split_ifs <;> simp +decide [configField, Ne.symm hne])
  by_cases h4 : k2 = strL "base_dir"
  · subst h4
    rcases hv : v.asStr with _ | s
    · simp +decide [applyField, configField, hv]
    · simp +decide [applyField, hv]
      try (split_ifs <;> simp +decide [configField, Ne.symm hne])
  by_cases h5 : k2 = strL "workspace_root_strategy"
  · subst h5
    rcases hv : v.asStr with _ | s
    · simp +decide [applyField, configField, hv]
    · simp +decide [applyField, hv]
      try (split_ifs <;> simp +decide [configField, Ne.symm hne])
  by_cases h6 : k2 = strL "max_results"
  · subst h6
    rcases hv : v.asU64 with _ | x <;>
      simp +decide [applyField, setNatField, configField, hv,
        Ne.symm hne]
  by_cases h7 : k2 = strL "show_hidden"
  · subst h7
    rcases hv : v.asBool with _ | x <;>
      simp +decide [applyField, setBoolField, configField, hv,
        Ne.symm hne]
  by_cases h8 : k2 = strL "include_files"
  · subst h8
    rcases hv : v.asBool with _ | x <;>
      simp +decide [applyField, setBoolField, configField, hv,
        Ne.symm hne]
  by_cases h9 : k2 = strL "include_directories"
  · subst h9
    rcases hv : v.asBool with _ | x <;>
      simp +decide [applyField, setBoolField, configField, hv,
        Ne.symm hne]
  by_cases h10 : k2 = strL "directory_trailing_slash"
  · subst h10
    rcases hv : v.asBool with _ | x <;>
      simp +decide [applyField, setBoolField, configField, hv,
        Ne.symm hne]
  by_cases h11 : k2 = strL "ignore_globs"
  · subst h11
    rcases hv : v.asArr with _ | list
    · simp +decide [applyField, configField, hv]
    · simp +decide [applyField, hv]
      try (split_ifs <;> simp +decide [configField, Ne.symm hne])
  by_cases h12 : k2 = strL "prefer_forward_slashes"
  · subst h12
    rcases hv : v.asBool with _ | x <;>
      simp +decide [applyField, setBoolField, configField, hv,
        Ne.symm hne]
  by_cases h13 : k2 = strL "expand_tilde"
  · subst h13
    rcases hv : v.asBool with _ | x <;>
      simp +decide [applyField, setBoolField, configField, hv,
        Ne.symm hne]
  by_cases h14 : k2 = strL "windows_enable_drive_prefix"
  · subst h14
    rcases hv : v.asBool with _ | x <;>
      simp +decide [applyField, setBoolField, configField, hv,
        Ne.symm hne]
  by_cases h15 : k2 = strL "windows_enable_unc"
  · subst h15
    rcases hv : v.asBool with _ | x <;>
      simp +decide [applyField, setBoolField, configField, hv,
        Ne.symm hne]
  by_cases h16 : k2 = strL "cache_ttl_ms"
  · subst h16
    rcases hv : v.asU64 with _ | x <;>
      simp +decide [applyField, setNatField, configField, hv,
        Ne.symm hne]
  by_cases h17 : k2 = strL "cache_max_dirs"
  · subst h17
    rcases hv : v.asU64 with _ | x <;>
      simp +decide [applyField, setNatField, configField, hv,
        Ne.symm hne]
  by_cases h18 : k2 = strL "stat_strategy"
  · subst h18
    rcases hv : v.asStr with _ | s
    · simp +decide [applyField, configField, hv]
    · simp +decide [applyField, hv]
      try (split_ifs <;> simp +decide [configField, Ne.symm hne])
  simp [applyField, h1, h2, h3, h4, h5, h6, h7, h8, h9, h10, h11, h12, h13, h14, h15, h16, h17, h18]

theorem foldl_applyField_frame (l : List (Str × JsonM)) (k : Str) :
    ∀ (cw : ConfigM × List Str), k ∉ l.map Prod.fst →
      configField k (l.foldl applyField cw).1 = configField k cw.1 := by
  induction l with
  | nil => intro cw hk; rfl
  | cons f l ih =>
    intro cw hk
    rw [List.foldl_cons]
    have hne : f.1 ≠ k := fun hh =>
      hk (hh ▸ List.mem_map_of_mem Prod.fst (List.mem_cons_self f l))
    have hkl : k ∉ l.map Prod.fst := fun hh =>
      hk (List.mem_cons_of_mem f.1 hh)
    rcases hcw : applyField cw f with ⟨c2, u⟩
    rw [ih (c2, u) hkl]
    have hfr := applyField_frame cw k f hne
    rw [hcw] at hfr
    exact hfr

set_option maxRecDepth 8000 in
/-- C5 amended: in any configuration load whose selected settings root
contains a field of the wrong type (and JSON object keys are unique),
the resulting configuration is exactly the one the same load produces
without that field — so every other field, well-typed or not, is applied
unaffected — and the mistyped field itself ends at its built-in default
value; the warnings are those of the load without the field with the
single wrong-type message for it inserted; the load still returns a full
configuration, the warning line is emitted exactly when no earlier load
had warned, and afterwards the warned flag is set. -/
theorem c5_config_fallback (v1 v2 : JsonM) (pre post : List (Str × JsonM))
    (k : Str) (fv : JsonM) (w : Bool)
    (hbad : mistypedField k fv = true)
    (hk : k ∉ (pre ++ post).map Prod.fst)
    (hroot1 : selectSettingsRoot v1 =
      some (JsonM.obj (pre ++ (k, fv) :: post)))
    (hroot2 : selectSettingsRoot v2 = some (JsonM.obj (pre ++ post))) :
    (loadConfig v1 w).config = (loadConfig v2 w).config ∧
    configField k (loadConfig v1 w).config = configField k defaultConfig ∧
    (∃ w1 w2, (loadConfig v2 w).warnings = w1 ++ w2 ∧
      (loadConfig v1 w).warnings = w1 ++ invalidTypeMsg k :: w2) ∧
    (loadConfig v1 w).emitted = !w ∧
    (loadConfig v1 w).warnedAfter = true := by
  rcases hpre : pre.foldl applyField (defaultConfig, []) with ⟨c1, w1⟩
  rcases hpost : post.foldl applyField (c1, []) with ⟨c2, w2⟩
  have hfull : (pre ++ (k, fv) :: post).foldl applyField
      (defaultConfig, []) = (c2, (w1 ++ [invalidTypeMsg k]) ++ w2) := by
    rw [List.foldl_append, hpre, List.foldl_cons,
      applyField_mistyped c1 w1 k fv hbad,
      foldl_applyField_sep, hpost]
  have hrest : (pre ++ post).foldl applyField (defaultConfig, []) =
      (c2, w1 ++ w2) := by
    rw [List.foldl_append, hpre, foldl_applyField_sep, hpost]
  have hkpre : k ∉ pre.map Prod.fst := fun hh =>
    hk (by rw [List.map_append]; exact List.mem_append_left _ hh)
  have hkpost : k ∉ post.map Prod.fst := fun hh =>
    hk (by rw [List.map_append]; exact List.mem_append_right _ hh)
  have hcf : configField k c2 = configField k defaultConfig := by
    have e1 := foldl_applyField_frame post k (c1, []) hkpost
    have e2 := foldl_applyField_frame pre k (defaultConfig, []) hkpre
    rw [hpost] at e1
    rw [hpre] at e2
    exact e1.trans e2
  simp only [loadConfig, hroot1, hroot2, hfull, hrest]
  refine ⟨trivial, hcf, ⟨w1, w2, rfl, by simp⟩, ?_, ?_⟩
  · cases w <;> simp
  · cases w <;> simp

/-- Settings object of the C5 witness: one well-typed field and one
field of the wrong type. -/
def c5Obj (b : Bool) (v : JsonM) : JsonM :=
  JsonM.obj [(strL "enable", JsonM.bool b), (strL "max_results", v)]

/-- Witness for C5: `max_results` set to a string in an object that also
sets `enable`. -/
theorem c5_config_fallback_witness :
    (loadConfig (c5Obj false (JsonM.str (strL "x"))) false).config =
      (loadConfig (JsonM.obj [(strL "enable", JsonM.bool false)])
        false).config ∧
    configField (strL "max_results")
        (loadConfig (c5Obj false (JsonM.str (strL "x"))) false).config =
      configField (strL "max_results") defaultConfig ∧
    (∃ w1 w2,
      (loadConfig (JsonM.obj [(strL "enable", JsonM.bool false)])
          false).warnings = w1 ++ w2 ∧
      (loadConfig (c5Obj false (JsonM.str (strL "x"))) false).warnings =
        w1 ++ invalidTypeMsg (strL "max_results") :: w2) ∧
    (loadConfig (c5Obj false (JsonM.str (strL "x"))) false).emitted =
      !false ∧
    (loadConfig (c5Obj false (JsonM.str (strL "x"))) false).warnedAfter =
      true :=
  c5_config_fallback (c5Obj false (JsonM.str (strL "x")))
    (JsonM.obj [(strL "enable", JsonM.bool false)])
    [(strL "enable", JsonM.bool false)] [] (strL "max_results")
    (JsonM.str (strL "x")) false (by decide) (by decide) rfl rfl

/-! ## C1: assembler truncation and deduplication -/

theorem dedupeGo_length (l : List (Str × Bool)) :
    ∀ (seen : List Str) (out : List (Str × Bool)),
      (dedupeGo l seen out).length ≤ l.length + out.length := by
  induction l with
  | nil =>
    intro seen out
    simp [dedupeGo]
  | cons e rest ih =>
    intro seen out
    simp only [dedupeGo]
    cases hc : seen.contains e.1
    · rw [if_neg (by simp [hc])]
      have := ih (e.1 :: seen) (e :: out)
      simp only [List.length_cons] at this ⊢
      omega
    · rw [if_pos (by simp [hc])]
      have := ih seen out
      simp only [List.length_cons]
      omega

theorem dedupeTake_length (filtered : List (Str × Bool)) (maxResults : Nat) :
    (dedupeTake filtered maxResults).length ≤ maxResults := by
  have h := dedupeGo_length (filtered.take maxResults) [] []
  have h2 := List.length_take_le maxResults filtered
  unfold dedupeTake
  simp only [List.length_nil] at h
  omega

/-- C1 amended, upper-bound half: the returned completion list never
has more than `maxResults` items. -/
theorem c1_length_bound (fs : Str → Option (List (Str × Bool)))
    (home : Option Str) (now : Nat) (state : ServerStateM)
    (params : ParamsM) :
    (completionItems fs home now state params).1.length ≤
      state.config.maxResults := by
  unfold completionItems
  repeat' split
  all_goals try simp only [List.length_nil, List.length_map]
  repeat' split
  all_goals try simp only [List.length_nil, List.length_map]
  all_goals first
    | exact Nat.zero_le _
    | exact dedupeTake_length _ _

/-- Filesystem of the C1 counterexample: two directories that both
contain files `a` and `b`. -/
def c1Fs : Str → Option (List (Str × Bool)) := fun d =>
  if d = strL "/w" then some [(strL "a", false), (strL "b", false)]
  else if d = strL "/r" then some [(strL "a", false), (strL "b", false)]
  else none

/-- Configuration of the C1 counterexample: result cap 2, both base
directories, no gating, no ignore globs. -/
def c1Config : ConfigM :=
  { defaultConfig with
    ignoreGlobs := []
    maxResults := 2
    contextGating := ContextGatingM.Off
    baseDir := BaseDirStrategyM.Both }

/-- Server state of the C1 counterexample. -/
def c1State : ServerStateM :=
  { documents :=
      [({ scheme := strL "file", path := strL "/w/d.py" },
        { text := strL "open(\"./", languageId := some (strL "python") })]
    rootUri := some { scheme := strL "file", path := strL "/r" }
    cache := DirCacheM.new 500 64
    config := c1Config
    configWarned := false }

/-- Request of the C1 counterexample: cursor at the end of
`open("./`. -/
def c1Params : ParamsM :=
  { uri := { scheme := strL "file", path := strL "/w/d.py" },
    line := 0, character := 8 }

/-- C1 counterexample: for this request the two resolved directories
are `/w` and `/r`, the concatenated filtered list is
`[a, a, b, b]` (two distinct names, equal to `maxResults = 2`), yet the
returned list has only one item, because the code truncates to
`maxResults` first and deduplicates afterwards. -/
theorem c1_counterexample :
    c1Config.maxResults = 2 ∧
    resolveListDirs (buildRelativeQuery (strL "./"))
        (some (strL "/w")) (some (strL "/r")) c1Config none =
      [strL "/w", strL "/r"] ∧
    filterEntries
        [(strL "a", false, pathJoin (strL "/w") (strL "a")),
         (strL "b", false, pathJoin (strL "/w") (strL "b")),
         (strL "a", false, pathJoin (strL "/r") (strL "a")),
         (strL "b", false, pathJoin (strL "/r") (strL "b"))]
        [] c1Config =
      [(strL "a", false), (strL "a", false), (strL "b", false),
       (strL "b", false)] ∧
    (completionItems c1Fs none 0 c1State c1Params).1.length = 1 := by
  decide

/-! ## C8: lexer monotonicity -/

/-- Invariant the scan maintains for an open string state. -/
def stateInv (line : Str) (s : StringStateM) : Prop :=
  s.delimLen = delimLenAt line s.startByte ∧
  ((s.delimLen = 3 ∧ s.delim = [s.quote, s.quote, s.quote] ∧
      s.quote.utf8Size = 1) ∨
    (s.delimLen = 1 ∧ s.delim = []))

theorem extractInfo_content (line : Str) (cursor : Nat) (s : StringStateM)
    (hinv : s.delimLen = delimLenAt line s.startByte) (info : StringInfoM)
    (h : extractInfo line cursor s = some (some info)) :
    info.contentBeforeCursor =
      sliceBytes (info.stringStartByte +
        delimLenAt line info.stringStartByte) cursor line ∧
    info.stringStartByte = s.startByte := by
  unfold extractInfo at h
  by_cases hle : s.startByte + s.delimLen ≤ cursor
  · rw [if_pos hle] at h
    by_cases hint : (s.isFstring &&
        isInInterp (sliceBytes (s.startByte + s.delimLen) cursor line)
          s.isRaw) = true
    · rw [if_pos hint] at h
      cases h
    · rw [if_neg hint] at h
      cases h
      exact ⟨by rw [← hinv], rfl⟩
  · rw [if_neg hle] at h
    cases h

theorem cursorHit_content (line : Str) (cursor i : Nat)
    (st : Option StringStateM)
    (hst : ∀ s, st = some s → s.delimLen = delimLenAt line s.startByte)
    (info : StringInfoM) (h : cursorHit line cursor i st = some (some info)) :
    info.contentBeforeCursor =
      sliceBytes (info.stringStartByte +
        delimLenAt line info.stringStartByte) cursor line := by
  unfold cursorHit at h
  by_cases hi : i = cursor
  · rw [if_pos hi] at h
    cases hs : st with
    | none => rw [hs] at h; cases h
    | some s =>
      rw [hs] at h
      exact (extractInfo_content line cursor s (hst s hs) info h).1
  · rw [if_neg hi] at h
    cases h

theorem fsiEnd_content (line : Str) (cursor : Nat)
    (st : Option StringStateM)
    (hst : ∀ s, st = some s → s.delimLen = delimLenAt line s.startByte)
    (info : StringInfoM) (h : fsiEnd line cursor st = some info) :
    info.contentBeforeCursor =
      sliceBytes (info.stringStartByte +
        delimLenAt line info.stringStartByte) cursor line := by
  unfold fsiEnd at h
  by_cases hc : cursor = byteLen line
  · rw [if_pos hc] at h
    cases hs : st with
    | none => rw [hs] at h; cases h
    | some s =>
      simp only [hs] at h
      cases hex : extractInfo line cursor s with
      | none => simp [hex] at h
      | some r =>
        simp only [hex] at h
        rw [h] at hex
        exact (extractInfo_content line cursor s (hst s hs) info hex).1
  · rw [if_neg hc] at h
    cases h

theorem drop_succ_of_drop_cons (line : Str) (k : Nat) (ch : Char)
    (rest' : Str) (h : line.drop k = ch :: rest') :
    line.drop (k + 1) = rest' := by
  have h2 : (line.drop k).drop 1 = rest' := by rw [h]; rfl
  rw [List.drop_drop] at h2
  exact h2

theorem take_succ_of_drop_cons (line : Str) (k : Nat) (ch : Char)
    (rest' : Str) (h : line.drop k = ch :: rest') :
    line.take (k + 1) = line.take k ++ [ch] := by
  have hget : getElem? line k = some ch := by
    rw [← List.head?_drop, h]
    rfl
  rw [List.take_succ, hget]
  rfl

theorem byteLen_take_succ (line : Str) (k : Nat) (ch : Char)
    (rest' : Str) (h : line.drop k = ch :: rest') :
    byteLen (line.take (k + 1)) = byteLen (line.take k) + ch.utf8Size := by
  rw [take_succ_of_drop_cons line k ch rest' h, byteLen_snoc]

theorem fsiGo_content (line : Str) (cursor : Nat) :
    ∀ (n : Nat) (rest : Str), rest.length ≤ n →
      ∀ (i : Nat) (st : Option StringStateM) (k : Nat),
        rest = line.drop k → i = byteLen (line.take k) →
        (∀ s, st = some s → stateInv line s) →
        ∀ info, fsiGo line cursor rest i st = some info →
          info.contentBeforeCursor =
            sliceBytes (info.stringStartByte +
              delimLenAt line info.stringStartByte) cursor line := by
  intro n
  induction n with
  | zero =>
    intro rest hlen i st k hrest hi hst info h
    have hnil : rest = [] := List.eq_nil_of_length_eq_zero (by omega)
    subst hnil
    exact fsiEnd_content line cursor st (fun s hs => (hst s hs).1) info h
  | succ n ih =>
    intro rest hlen i st k hrest hi hst info h
    cases rest with
    | nil =>
      exact fsiEnd_content line cursor st (fun s hs => (hst s hs).1) info h
    | cons ch rest' =>
      rw [fsiGo.eq_def] at h
      cases hcur : cursorHit line cursor i st with
      | some r =>
        simp only [hcur, Option.isSome_some, Option.getD_some, if_true] at h
        rw [h] at hcur
        exact cursorHit_content line cursor i st (fun s hs => (hst s hs).1)
          info hcur
      | none =>
        simp only [hcur, Option.isSome_none, Bool.false_eq_true, if_false] at h
        by_cases hcomment : (st.isNone && ch = '#') = true
        · rw [if_pos hcomment] at h
          cases h
        · rw [if_neg hcomment] at h
          have hdropk : line.drop k = ch :: rest' := hrest.symm
          have hdrop1 : line.drop (k + 1) = rest' :=
            drop_succ_of_drop_cons line k ch rest' hdropk
          have hbyte1 : byteLen (line.take (k + 1)) =
              byteLen (line.take k) + ch.utf8Size :=
            byteLen_take_succ line k ch rest' hdropk
          cases hstv : st with
          | some s =>
            simp only [hstv] at h
            have hsinv := hst s hstv
            by_cases hesc : (!s.isRaw && ch = '\\') = true
            · rw [if_pos hesc] at h
              cases rest' with
              | nil =>
                exact fsiEnd_content line cursor (some s)
                  (fun s2 hs2 => by cases hs2; exact hsinv.1) info h
              | cons next rest'' =>
                have hdrop2 : line.drop (k + 1 + 1) = rest'' :=
                  drop_succ_of_drop_cons line (k + 1) next rest'' hdrop1
                have hbyte2 : byteLen (line.take (k + 1 + 1)) =
                    byteLen (line.take (k + 1)) + next.utf8Size :=
                  byteLen_take_succ line (k + 1) next rest'' hdrop1
                refine ih rest'' (by simp at hlen; omega)
                  (i + ch.utf8Size + next.utf8Size) (some s) (k + 1 + 1)
                  hdrop2.symm (by omega)
                  (fun s2 hs2 => by cases hs2; exact hsinv) info h
            · rw [if_neg hesc] at h
              by_cases hclose1 : (s.delimLen = 1 && ch = s.quote) = true
              · rw [if_pos hclose1] at h
                refine ih rest' (by simp at hlen; omega)
                  (i + ch.utf8Size) none (k + 1)
                  hdrop1.symm (by omega)
                  (fun s2 hs2 => by cases hs2) info h
              · rw [if_neg hclose1] at h
                by_cases hclose3 :
                    (s.delimLen = 3 && s.delim.isPrefixOf (ch :: rest')) = true
                · rw [if_pos hclose3] at h
                  rw [Bool.and_eq_true, decide_eq_true_eq] at hclose3
                  obtain ⟨hd3, hpre⟩ := hclose3
                  rcases hsinv.2 with ⟨_, hdelim, hq1⟩ | ⟨hd1, _⟩
                  · have hpre' : s.delim <+: (ch :: rest') :=
                      List.isPrefixOf_iff_prefix.mp hpre
                    rw [hdelim] at hpre'
                    obtain ⟨t, ht⟩ := hpre'
                    have hch : ch = s.quote := by
                      have := congrArg (fun l => l.head?) ht
                      simpa using this.symm
                    have hrest'eq : rest' = s.quote :: s.quote :: t := by
                      have := congrArg (fun l => l.tail) ht
                      simpa using this.symm
                    subst hrest'eq
                    have hdrop2 : line.drop (k + 1 + 1) = s.quote :: t :=
                      drop_succ_of_drop_cons line (k + 1) s.quote
                        (s.quote :: t) hdrop1
                    have hdrop3 : line.drop (k + 1 + 1 + 1) = t :=
                      drop_succ_of_drop_cons line (k + 1 + 1) s.quote t hdrop2
                    have hbyte2 : byteLen (line.take (k + 1 + 1)) =
                        byteLen (line.take (k + 1)) + s.quote.utf8Size :=
                      byteLen_take_succ line (k + 1) s.quote
                        (s.quote :: t) hdrop1
                    have hbyte3 : byteLen (line.take (k + 1 + 1 + 1)) =
                        byteLen (line.take (k + 1 + 1)) + s.quote.utf8Size :=
                      byteLen_take_succ line (k + 1 + 1) s.quote t hdrop2
                    have hchsz : ch.utf8Size = 1 := by rw [hch, hq1]
                    refine ih t (by simp at hlen; omega) (i + 3) none
                      (k + 1 + 1 + 1) hdrop3.symm (by omega)
                      (fun s2 hs2 => by cases hs2) info h
                  · omega
                · rw [if_neg hclose3] at h
                  refine ih rest' (by simp at hlen; omega)
                    (i + ch.utf8Size) (some s) (k + 1)
                    hdrop1.symm (by omega)
                    (fun s2 hs2 => by cases hs2; exact hsinv) info h
          | none =>
            simp only [hstv] at h
            by_cases hquote : (ch = '\'' || ch = '"') = true
            · rw [if_pos hquote] at h
              have hdropi : dropBytes i line = ch :: rest' := by
                rw [hi, dropBytes_byteLen_take, hdropk]
              refine ih rest' (by simp at hlen; omega)
                (i + ch.utf8Size) _ (k + 1)
                hdrop1.symm (by omega) ?_ info h
              intro s2 hs2
              cases hs2
              constructor
              · show (if (strL "\"\"\"").isPrefixOf (ch :: rest')
                    || (strL "'''").isPrefixOf (ch :: rest') then 3 else 1) =
                  delimLenAt line i
                rw [delimLenAt, hdropi]
              · by_cases hP : ((strL "\"\"\"").isPrefixOf (ch :: rest')
                    || (strL "'''").isPrefixOf (ch :: rest')) = true
                · left
                  refine ⟨by simp [hP], by simp [hP], ?_⟩
                  show ch.utf8Size = 1
                  rcases (by simpa using hquote : ch = '\'' ∨ ch = '"') with
                    hc | hc <;> rw [hc] <;> decide
                · right
                  exact ⟨by simp [hP], by simp [hP]⟩
            · rw [if_neg hquote] at h
              refine ih rest' (by simp at hlen; omega)
                (i + ch.utf8Size) none (k + 1)
                hdrop1.symm (by omega)
                (fun s2 hs2 => by cases hs2) info h

/-- C8 counterexample: in the line `"a\bc` the lexer returns a
`StringInfo` at cursor 5 (content `a\bc`), but at the strictly earlier
cursor 3 — still inside the same string literal — it returns nothing,
because the escape-consuming scan steps over byte 3 without ever
comparing it to the cursor. -/
theorem c8_counterexample :
    findStringInfo (strL "\"a\\bc") 5 =
      some { contentBeforeCursor := strL "a\\bc"
             isRaw := false
             isFstring := false
             stringStartByte := 0
             stringStartUtf16 := 1 } ∧
    findStringInfo (strL "\"a\\bc") 3 = none := by
  decide

/-- C8: whenever re-lexing the same line with an earlier (or equal)
cursor again yields a `StringInfo` for the same string literal (same
string start byte), its content before the cursor is a prefix of the
original content; the lexer may however yield nothing at the earlier
cursor, e.g. inside an escape sequence or an f-string interpolation. -/
theorem c8_lexer_monotonicity (line : Str) (c1 c2 : Nat)
    (i1 i2 : StringInfoM)
    (h1 : findStringInfo line c1 = some i1)
    (h2 : findStringInfo line c2 = some i2)
    (hle : c2 ≤ c1)
    (hsame : i2.stringStartByte = i1.stringStartByte) :
    i2.contentBeforeCursor <+: i1.contentBeforeCursor := by
  have e1 := fsiGo_content line c1 line.length line (le_refl _) 0 none 0
    rfl rfl (fun s hs => by cases hs) i1 h1
  have e2 := fsiGo_content line c2 line.length line (le_refl _) 0 none 0
    rfl rfl (fun s hs => by cases hs) i2 h2
  rw [e1, e2, hsame]
  unfold sliceBytes
  exact takeBytes_prefix_mono _ _ _ (Nat.sub_le_sub_right hle _)

theorem c8_lexer_monotonicity_witness :
    findStringInfo (strL "\"ab") 3 =
      some { contentBeforeCursor := strL "ab"
             isRaw := false
             isFstring := false
             stringStartByte := 0
             stringStartUtf16 := 1 } ∧
    findStringInfo (strL "\"ab") 2 =
      some { contentBeforeCursor := strL "a"
             isRaw := false
             isFstring := false
             stringStartByte := 0
             stringStartUtf16 := 1 } ∧
    strL "a" <+: strL "ab" :=
  ⟨by decide, by decide,
    c8_lexer_monotonicity (strL "\"ab") 3 2
      { contentBeforeCursor := strL "ab"
        isRaw := false
        isFstring := false
        stringStartByte := 0
        stringStartUtf16 := 1 }
      { contentBeforeCursor := strL "a"
        isRaw := false
        isFstring := false
        stringStartByte := 0
        stringStartUtf16 := 1 }
      (by decide) (by decide) (by decide) rfl⟩
